import Mathlib

/-! ## Shallow embedding of the `kraken-rust` order-book core (`src/order_book.rs`)

The Rust source maintains an `OrderBook { depth, bids: Vec<Level>, asks: Vec<Level> }`
with `Level { price: f64, volume: f64 }`, fed by `serde_json::Value` messages.

Embedding conventions:

* `f64` values are modelled by `F64`: a finite value is carried as an exact
  rational (the decimal strings on the wire denote exact decimals; the order
  book only ever parses, compares for equality/order, and re-formats these
  values with enough precision, so the rational abstraction commutes with
  every operation the code performs on them).  `NaN` and the two infinities,
  which Rust's `f64` parser also accepts, are explicit constructors; `NaN` is
  the one value on which `partial_cmp` returns `None` and on which `==` is
  never true, exactly as for Rust `f64`.
* `serde_json::Value` is modelled by `Json`.  `Value::get` with a string key
  returns `none` unless the value is an object; with an integer index it
  returns `none` unless the value is an array with the index in bounds —
  matching serde_json.
* Rust panics (the `partial_cmp(..).unwrap()` inside the sort comparators,
  and the `Vec` indexing `ask[0]` / `ask[1]` / `ask[2]` on update entries)
  are modelled by `Except Unit`: `Except.error ()` is an aborted call.
* `Vec::sort_by` (a stable sort) is modelled by a stable insertion sort run
  in the `Except` monad: a comparison whose `partial_cmp` is `None` aborts.
  For comparators that are total preorders on the elements actually compared
  the result of any stable sort is unique, so this agrees with Rust's sort;
  and an element on which the comparator is partial (a `NaN` price) is
  touched by at least one comparison by every sort whenever the slice has
  length ≥ 2, so the abort behaviour agrees as well.
-/

/-- Model of an `f64` value as produced by `str::parse::<f64>()`: an exact
finite decimal, an infinity, or `NaN`. -/
inductive F64 where
  | nan : F64
  | inf (neg : Bool) : F64
  | fin (val : ℚ) : F64
deriving DecidableEq, Repr

/-- Rust `f64` `PartialEq`: `NaN` equals nothing (itself included); infinities
compare by sign; finite values by value. -/
def beqF64 : F64 → F64 → Bool
  | F64.fin a, F64.fin b => decide (a = b)
  | F64.inf a, F64.inf b => a == b
  | _, _ => false

/-- Rust `f64` `partial_cmp`: `none` iff either operand is `NaN`. -/
def cmpF64 : F64 → F64 → Option Ordering
  | F64.nan, _ => none
  | _, F64.nan => none
  | F64.inf true, F64.inf true => some Ordering.eq
  | F64.inf true, _ => some Ordering.lt
  | F64.inf false, F64.inf false => some Ordering.eq
  | _, F64.inf false => some Ordering.lt
  | F64.inf false, _ => some Ordering.gt
  | _, F64.inf true => some Ordering.gt
  | F64.fin a, F64.fin b =>
      some (if a < b then Ordering.lt else if b < a then Ordering.gt else Ordering.eq)

/-- Model of `serde_json::Value`. -/
inductive Json where
  | null : Json
  | bool (b : Bool) : Json
  | num (q : ℚ) : Json
  | str (s : String) : Json
  | arr (elems : List Json) : Json
  | obj (fields : List (String × Json)) : Json

/-- Models `Value::as_str`. -/
def Json.as_str : Json → Option String
  | Json.str s => some s
  | _ => none

/-- Models `Value::as_array` (the list of elements). -/
def Json.as_arr : Json → Option (List Json)
  | Json.arr xs => some xs
  | _ => none

/-- Models `Value::get(usize)`: in-bounds array access, else `None`. -/
def Json.getIdx : Json → Nat → Option Json
  | Json.arr xs, i => xs.get? i
  | _, _ => none

/-- Models `Value::get(&str)`: object key lookup, else `None`. -/
def Json.getStr : Json → String → Option Json
  | Json.obj fs, k => (fs.find? (fun f => f.1 == k)).map (fun f => f.2)
  | _, _ => none

/-! ## Parsing decimal strings (`str::parse::<f64>()`)

Grammar from the Rust standard library documentation:
`Float ::= Sign? ( 'inf' | 'infinity' | 'nan' | Number )`,
`Number ::= Count '.'? Count? Exp? | '.' Count Exp?`,
`Exp ::= ('e'|'E') Sign? Count`, `Count ::= Digit+`, words case-insensitive.
A successfully parsed finite number is kept as its exact rational value. -/

def digitVal (ch : Char) : Nat := ch.toNat - 48

def digitsToNat (ds : List Char) : Nat :=
  ds.foldl (fun a ch => a * 10 + digitVal ch) 0

/-- Parse the `Number` nonterminal (no sign), returning its exact value. -/
def parseNumber (cs : List Char) : Option ℚ :=
  let intPart := cs.takeWhile Char.isDigit
  let rest1 := cs.dropWhile Char.isDigit
  let fracPart :=
    match rest1 with
    | '.' :: r => r.takeWhile Char.isDigit
    | _ => []
  let rest2 :=
    match rest1 with
    | '.' :: r => r.dropWhile Char.isDigit
    | r => r
  let expPart : Option ℤ :=
    match rest2 with
    | [] => some 0
    | e :: r =>
      if e = 'e' ∨ e = 'E' then
        let eneg : Bool := match r with | '-' :: _ => true | _ => false
        let r2 := match r with | '+' :: rr => rr | '-' :: rr => rr | rr => rr
        let eds := r2.takeWhile Char.isDigit
        if eds ≠ [] ∧ r2.dropWhile Char.isDigit = [] then
          some (if eneg then -(digitsToNat eds : ℤ) else (digitsToNat eds : ℤ))
        else none
      else none
  match expPart with
  | none => none
  | some ex =>
    if intPart = [] ∧ fracPart = [] then none
    else
      let m : ℤ := Int.ofNat (digitsToNat intPart * Nat.pow 10 fracPart.length + digitsToNat fracPart)
      let e : ℤ := ex - Int.ofNat fracPart.length
      some (if 0 ≤ e then mkRat (m * Int.ofNat (Nat.pow 10 e.toNat)) 1
            else mkRat m (Nat.pow 10 (-e).toNat))

/-- Models `str::parse::<f64>()`, yielding `none` exactly when Rust's parse fails. -/
def parseF64 (s : String) : Option F64 :=
  let cs := s.data
  let neg : Bool := match cs with | '-' :: _ => true | _ => false
  let rest := match cs with | '+' :: r => r | '-' :: r => r | r => r
  let low := rest.map Char.toLower
  if low = "inf".data ∨ low = "infinity".data then some (F64.inf neg)
  else if low = "nan".data then some F64.nan
  else
    match parseNumber rest with
    | some q => some (F64.fin (if neg then -q else q))
    | none => none

/-! ## The order book -/

/-- Models `Level { price: f64, volume: f64 }`. -/
structure Level where
  price : F64
  volume : F64
deriving DecidableEq, Repr

/-- Models `OrderBook { depth: usize, bids: Vec<Level>, asks: Vec<Level> }`. -/
structure OrderBook where
  depth : Nat
  bids : List Level
  asks : List Level
deriving DecidableEq, Repr

/-- Models `OrderBook::new(depth)`. -/
def OrderBook.new (depth : Nat) : OrderBook :=
  { depth := depth, bids := [], asks := [] }

/-- The ask-side sort comparator `|a, b| a.price.partial_cmp(&b.price).unwrap()`
(before the `unwrap`). -/
def cmpAsk (x y : Level) : Option Ordering := cmpF64 x.price y.price

/-- The bid-side sort comparator `|a, b| b.price.partial_cmp(&a.price).unwrap()`
(before the `unwrap`). -/
def cmpBid (x y : Level) : Option Ordering := cmpF64 y.price x.price

/-- Insert `x` into `l` (assumed sorted) in front of the first element not
strictly below it; a `none` comparison is the `unwrap` panic. -/
def insertE (c : α → α → Option Ordering) (x : α) : List α → Except Unit (List α)
  | [] => Except.ok [x]
  | y :: ys =>
    match c x y with
    | none => Except.error ()
    | some Ordering.gt => do
      let r ← insertE c x ys
      Except.ok (y :: r)
    | some _ => Except.ok (x :: y :: ys)

/-- Models `Vec::sort_by` with a possibly-panicking comparator: stable insertion
sort in the `Except` monad (see the header comment for why this agrees with
Rust's stable sort). -/
def sortByE (c : α → α → Option Ordering) : List α → Except Unit (List α)
  | [] => Except.ok []
  | x :: xs => do
    let r ← sortByE c xs
    insertE c x r

/-- One snapshot entry:
`let price = ask.get(0)?.as_str()?.parse::<f64>().ok()?;` and likewise the
volume at index 1 (the timestamp at index 2 is never read). -/
def parseSnapEntry (e : Json) : Option Level := do
  let pv ← e.getIdx 0
  let ps ← pv.as_str
  let p ← parseF64 ps
  let vv ← e.getIdx 1
  let vs ← vv.as_str
  let v ← parseF64 vs
  some { price := p, volume := v }

/-- One snapshot side: `.iter().take(self.depth).filter_map(..).collect()`. -/
def parseSide (entries : List Json) (depth : Nat) : List Level :=
  (entries.take depth).filterMap parseSnapEntry

/-- The unsorted contents one side of `initialize` ends up with: the parsed
snapshot entries when the key is present and holds an array
(`if let Some(asks) = snapshot.get("as").and_then(Value::as_array)`), the
side's previous contents otherwise. -/
def snapSide (cur : List Level) (snapshot : Json) (key : String) (depth : Nat) : List Level :=
  match (snapshot.getStr key).bind Json.as_arr with
  | some entries => parseSide entries depth
  | none => cur

/-- Models `OrderBook::initialize`: replace whichever sides the snapshot carries
(`"as"` / `"bs"` keys holding arrays), then sort bids descending and asks
ascending; the sorts can panic on `NaN` prices. -/
def OrderBook.initialize (b : OrderBook) (snapshot : Json) : Except Unit OrderBook := do
  let asks0 := snapSide b.asks snapshot "as" b.depth
  let bids0 := snapSide b.bids snapshot "bs" b.depth
  let bids1 ← sortByE cmpBid bids0
  let asks1 ← sortByE cmpAsk asks0
  Except.ok { depth := b.depth, bids := bids1, asks := asks1 }

/-- Models the `Vec` indexing `xs[i]` inside the update-entry destructuring: panics
(`Except.error`) when out of bounds. -/
def vecIndex (xs : List Json) (i : Nat) : Except Unit Json :=
  match xs.get? i with
  | some v => Except.ok v
  | none => Except.error ()

/-- The update-entry destructuring
`ask.as_array().and_then(|ask| Some((ask[0].as_str()?, ask[1].as_str()?, ask[2].as_str()?)))`:
a non-array entry is skipped (`none`); on an array, the three indexings panic
when out of bounds, in left-to-right short-circuit order (a non-string element
aborts the `and_then` before the next index is touched). -/
def entryStrings (e : Json) : Except Unit (Option (String × String × String)) :=
  match e with
  | Json.arr xs => do
    let v0 ← vecIndex xs 0
    match v0.as_str with
    | none => Except.ok none
    | some s0 => do
      let v1 ← vecIndex xs 1
      match v1.as_str with
      | none => Except.ok none
      | some s1 => do
        let v2 ← vecIndex xs 2
        match v2.as_str with
        | none => Except.ok none
        | some s2 => Except.ok (some (s0, s1, s2))
  | _ => Except.ok none

/-- Models `iter_mut().find(|a| a.price == price)` followed by
`existing.volume = volume`: replace the volume of the first level whose price
`==`-matches. -/
def setFirstVolume (p v : F64) : List Level → List Level
  | [] => []
  | a :: rest =>
    if beqF64 a.price p then { price := a.price, volume := v } :: rest
    else a :: setFirstVolume p v rest

/-- One update diff entry applied to one side (`c` is that side's sort
comparator).  Parse failures degrade to `0.0` (`unwrap_or(0.0)`); zero volume
is `retain(|a| a.price != price)`; a present price has its volume replaced in
place; an absent price is pushed and the side re-sorted. -/
def applyEntry (c : Level → Level → Option Ordering) (side : List Level) (e : Json) :
    Except Unit (List Level) := do
  match ← entryStrings e with
  | none => Except.ok side
  | some (ps, vs, _ts) =>
    let price := (parseF64 ps).getD (F64.fin 0)
    let volume := (parseF64 vs).getD (F64.fin 0)
    if beqF64 volume (F64.fin 0) then
      Except.ok (side.filter fun a => !(beqF64 a.price price))
    else if side.any fun a => beqF64 a.price price then
      Except.ok (setFirstVolume price volume side)
    else
      sortByE c (side ++ [{ price := price, volume := volume }])

/-- Models `OrderBook::truncate_to_depth`: truncate each side to `depth`
(`Vec::truncate`, i.e. keep the first `depth` elements) and then defensively
re-sort both sides. -/
def OrderBook.truncate_to_depth (b : OrderBook) : Except Unit OrderBook := do
  let asks1 := b.asks.take b.depth
  let bids1 := b.bids.take b.depth
  let asks2 ← sortByE cmpAsk asks1
  let bids2 ← sortByE cmpBid bids1
  Except.ok { depth := b.depth, bids := bids2, asks := asks2 }

/-- One side's diff block inside `update`:
`if let Some(asks_update) = update_data.get("a").and_then(|a| a.as_array())`
followed by the `for` loop applying each entry in order; an absent or
non-array key leaves the side untouched. -/
def updateSide (c : Level → Level → Option Ordering) (cur : List Level) (ud : Json)
    (key : String) : Except Unit (List Level) :=
  match (ud.getStr key).bind Json.as_arr with
  | some entries => entries.foldlM (applyEntry c) cur
  | none => Except.ok cur

/-- Models `OrderBook::update`: element 1 of the message (absent: nothing applied),
then the `"a"` diff entries in order, then the `"b"` diff entries in order,
then `truncate_to_depth` (which runs even when element 1 is absent). -/
def OrderBook.update (b : OrderBook) (msg : Json) : Except Unit OrderBook := do
  let b1 ←
    match msg.getIdx 1 with
    | none => Except.ok b
    | some ud => do
      let asks1 ← updateSide cmpAsk b.asks ud "a"
      let bids1 ← updateSide cmpBid b.bids ud "b"
      Except.ok { depth := b.depth, bids := bids1, asks := asks1 }
  b1.truncate_to_depth

/-! ## The checksum (`OrderBook::calculate_checksum`) -/

/-- Round `num / den` (`den` positive) to the nearest integer, ties to even —
the rounding Rust's fixed-precision float formatting applies to the decimal
expansion. -/
def rheDiv (num den : ℤ) : ℤ :=
  let f := Int.fdiv num den
  let r := num - f * den
  if 2 * r < den then f
  else if den < 2 * r then f + 1
  else if f % 2 = 0 then f else f + 1

/-- Models `format!("{:.prec}", x)` for an `f64` (used with `prec` = 5 and 8):
fixed-point with exactly `prec` fractional digits (the magnitude `|q| * 10 ^ prec`
is rounded as the ratio `(|q.num| * 10 ^ prec) / q.den`); `NaN` and infinities
format as `"NaN"`, `"inf"`, `"-inf"`. -/
def formatFixed (prec : Nat) (x : F64) : String :=
  match x with
  | F64.nan => "NaN"
  | F64.inf neg => if neg then "-inf" else "inf"
  | F64.fin q =>
    let neg := q < 0
    let n : Nat := (rheDiv (Int.ofNat (q.num.natAbs * Nat.pow 10 prec)) (Int.ofNat q.den)).toNat
    let ds := Nat.toDigits 10 n
    let padded := List.replicate (prec + 1 - ds.length) '0' ++ ds
    let k := padded.length - prec
    let core := padded.take k ++ '.' :: padded.drop k
    String.mk (if neg then '-' :: core else core)

/-- Models `.replace(".", "")`. -/
def removeDot (s : String) : String := String.mk (s.data.filter (fun ch => ch ≠ '.'))

/-- Models `.trim_start_matches('0')`. -/
def trimZeros (s : String) : String := String.mk (s.data.dropWhile (fun ch => ch = '0'))

/-- The two formatted-and-stripped segments one level contributes to the
checksum input: price at 5 decimals then volume at 8 decimals. -/
def levelChecksumStr (l : Level) : String :=
  trimZeros (removeDot (formatFixed 5 l.price)) ++ trimZeros (removeDot (formatFixed 8 l.volume))

/-- One step of the reflected CRC-32: shift right, conditionally xor the
reversed polynomial `0xEDB88320`. -/
def crc32Step (c : Nat) : Nat :=
  if c % 2 = 1 then Nat.xor (c / 2) 0xEDB88320 else c / 2

def crc32Bits : Nat → Nat → Nat
  | 0, c => c
  | n + 1, c => crc32Bits n (crc32Step c)

def crc32Byte (c b : Nat) : Nat := crc32Bits 8 (Nat.xor c (b % 256))

/-- Standard CRC-32 (IEEE, as computed by the `crc32fast` crate). -/
def crc32 (bytes : List Nat) : Nat :=
  Nat.xor (bytes.foldl crc32Byte 0xFFFFFFFF) 0xFFFFFFFF

/-- UTF-8 bytes of the checksum input string (every character the formatter
emits is ASCII, so code points are bytes). -/
def strBytes (s : String) : List Nat := s.data.map Char.toNat

/-- Models `OrderBook::calculate_checksum`: concatenate the segments of the first 10
asks then the first 10 bids and CRC-32 the resulting bytes. -/
def OrderBook.calculate_checksum (b : OrderBook) : Nat :=
  crc32 (strBytes (String.join ((b.asks.take 10 ++ b.bids.take 10).map levelChecksumStr)))

/-! ## Comparator facts -/

/-- Strict "the comparator says less-than". -/
def ltC (c : α → α → Option Ordering) (a b : α) : Prop := c a b = some Ordering.lt

/-- Non-strict "the comparator says less-than-or-equal". -/
def leC (c : α → α → Option Ordering) (a b : α) : Prop :=
  c a b = some Ordering.lt ∨ c a b = some Ordering.eq

instance (c : α → α → Option Ordering) (a b : α) : Decidable (ltC c a b) := by
  unfold ltC; infer_instance

instance (c : α → α → Option Ordering) (a b : α) : Decidable (leC c a b) := by
  unfold leC; infer_instance


theorem cmpF64_fin_lt_iff {a b : ℚ} :
    cmpF64 (F64.fin a) (F64.fin b) = some Ordering.lt ↔ a < b := by
  rcases lt_trichotomy a b with h | h | h
  · simp [cmpF64, h]
  · subst h; simp [cmpF64, lt_irrefl]
  · simp [cmpF64, h, h.not_lt]

theorem cmpF64_fin_gt_iff {a b : ℚ} :
    cmpF64 (F64.fin a) (F64.fin b) = some Ordering.gt ↔ b < a := by
  rcases lt_trichotomy a b with h | h | h
  · simp [cmpF64, h, h.not_lt]
  · subst h; simp [cmpF64, lt_irrefl]
  · simp [cmpF64, h, h.not_lt]

theorem cmpF64_fin_eq_iff {a b : ℚ} :
    cmpF64 (F64.fin a) (F64.fin b) = some Ordering.eq ↔ a = b := by
  rcases lt_trichotomy a b with h | h | h
  · simp [cmpF64, h, h.ne]
  · subst h; simp [cmpF64, lt_irrefl]
  · simp [cmpF64, h, h.not_lt, h.ne']

theorem cmpF64_swap_gt {x y : F64} (h : cmpF64 x y = some Ordering.gt) :
    cmpF64 y x = some Ordering.lt := by
  rcases x with _ | nx | a <;> rcases y with _ | ny | b <;> (try cases nx) <;> (try cases ny) <;>
    first
      | (rw [cmpF64_fin_gt_iff] at h; rw [cmpF64_fin_lt_iff]; exact h)
      | simp [cmpF64] at h ⊢

theorem cmpF64_eq_iff_beq {x y : F64} : cmpF64 x y = some Ordering.eq ↔ beqF64 x y = true := by
  rcases x with _ | nx | a <;> rcases y with _ | ny | b <;> (try cases nx) <;> (try cases ny) <;>
    first
      | (rw [cmpF64_fin_eq_iff]; simp [beqF64])
      | simp [cmpF64, beqF64]

theorem cmpF64_lt_trans {x y z : F64} (h1 : cmpF64 x y = some Ordering.lt)
    (h2 : cmpF64 y z = some Ordering.lt) : cmpF64 x z = some Ordering.lt := by
  rcases x with _ | nx | a <;> rcases y with _ | ny | b <;> rcases z with _ | nz | c <;>
    (try cases nx) <;> (try cases ny) <;> (try cases nz) <;>
    first
      | (rw [cmpF64_fin_lt_iff] at h1 h2 ⊢; exact lt_trans h1 h2)
      | simp [cmpF64] at h1 h2 ⊢

theorem cmpF64_isSome {x y : F64} (hx : x ≠ F64.nan) (hy : y ≠ F64.nan) :
    (cmpF64 x y).isSome = true := by
  rcases x with _ | nx | a <;> rcases y with _ | ny | b <;> (try cases nx) <;> (try cases ny) <;>
    simp [cmpF64] at hx hy ⊢

theorem cmpF64_some_not_nan {x y : F64} {o : Ordering} (h : cmpF64 x y = some o) :
    x ≠ F64.nan ∧ y ≠ F64.nan := by
  constructor
  · rintro rfl; simp [cmpF64] at h
  · rintro rfl
    rcases x with _ | nx | a <;> simp [cmpF64] at h

theorem cmpF64_lt_ne {x y : F64} (h : cmpF64 x y = some Ordering.lt) : x ≠ y := by
  rintro rfl
  rcases x with _ | nx | a <;> (try cases nx) <;> simp [cmpF64, lt_irrefl] at h

theorem beqF64_comm (x y : F64) : beqF64 x y = beqF64 y x := by
  rcases x with _ | nx | a <;> rcases y with _ | ny | b <;> (try cases nx) <;> (try cases ny) <;>
    simp [beqF64, eq_comm]

theorem beqF64_trans {x y z : F64} (h1 : beqF64 x y = true) (h2 : beqF64 y z = true) :
    beqF64 x z = true := by
  rcases x with _ | nx | a <;> rcases y with _ | ny | b <;> rcases z with _ | nz | c <;>
    (try cases nx) <;> (try cases ny) <;> (try cases nz) <;>
    simp_all [beqF64]

/-! ## Generic facts about the panicking insertion sort -/

theorem exceptBind_ok {ε : Type u} {α β : Type v} {x : Except ε α} {f : α → Except ε β} {b : β}
    (h : (x >>= f) = Except.ok b) : ∃ a, x = Except.ok a ∧ f a = Except.ok b := by
  cases x with
  | error e => simp [Bind.bind, Except.bind] at h
  | ok a => exact ⟨a, rfl, by simpa [Bind.bind, Except.bind] using h⟩

theorem insertE_perm (c : α → α → Option Ordering) (x : α) :
    ∀ {l r : List α}, insertE c x l = Except.ok r → r.Perm (x :: l) := by
  intro l
  induction l with
  | nil =>
    intro r h
    simp only [insertE, Except.ok.injEq] at h
    subst h; exact List.Perm.refl _
  | cons y ys ih =>
    intro r h
    simp only [insertE] at h
    cases hc : c x y <;> rw [hc] at h
    · simp at h
    · rename_i o
      cases o
      · simp only [Except.ok.injEq] at h
        subst h; exact List.Perm.refl _
      · simp only [Except.ok.injEq] at h
        subst h; exact List.Perm.refl _
      · have h2 : (insertE c x ys >>= fun r1 => Except.ok (y :: r1)) = Except.ok r := h
        obtain ⟨r1, hr1, hr2⟩ := exceptBind_ok h2
        simp only [Except.ok.injEq] at hr2
        subst hr2
        exact (List.Perm.cons y (ih hr1)).trans (List.Perm.swap x y ys)

theorem sortByE_perm (c : α → α → Option Ordering) :
    ∀ {l r : List α}, sortByE c l = Except.ok r → r.Perm l := by
  intro l
  induction l with
  | nil =>
    intro r h
    simp only [sortByE, Except.ok.injEq] at h
    subst h; exact List.Perm.refl _
  | cons x xs ih =>
    intro r h
    simp only [sortByE] at h
    have h2 : (sortByE c xs >>= fun r1 => insertE c x r1) = Except.ok r := h
    obtain ⟨r1, hr1, hr2⟩ := exceptBind_ok h2
    exact (insertE_perm c x hr2).trans (List.Perm.cons x (ih hr1))

theorem insertE_head (c : α → α → Option Ordering) (x : α) :
    ∀ {l r : List α}, insertE c x l = Except.ok r →
      r.head? = some x ∨ r.head? = l.head? := by
  intro l
  cases l with
  | nil =>
    intro r h
    simp only [insertE, Except.ok.injEq] at h
    subst h; exact Or.inl rfl
  | cons y ys =>
    intro r h
    simp only [insertE] at h
    cases hc : c x y <;> rw [hc] at h
    · simp at h
    · rename_i o
      cases o
      · simp only [Except.ok.injEq] at h; subst h; exact Or.inl rfl
      · simp only [Except.ok.injEq] at h; subst h; exact Or.inl rfl
      · have h2 : (insertE c x ys >>= fun r1 => Except.ok (y :: r1)) = Except.ok r := h
        obtain ⟨r1, hr1, hr2⟩ := exceptBind_ok h2
        simp only [Except.ok.injEq] at hr2
        subst hr2
        exact Or.inr rfl

theorem insertE_chain (c : α → α → Option Ordering)
    (hswap : ∀ a b, c a b = some Ordering.gt → c b a = some Ordering.lt) (x : α) :
    ∀ {l r : List α}, List.Chain' (leC c) l → insertE c x l = Except.ok r →
      List.Chain' (leC c) r := by
  intro l
  induction l with
  | nil =>
    intro r _ h
    simp only [insertE, Except.ok.injEq] at h
    subst h; exact List.chain'_singleton x
  | cons y ys ih =>
    intro r hchain h
    simp only [insertE] at h
    cases hc : c x y <;> rw [hc] at h
    · simp at h
    · rename_i o
      cases o
      · simp only [Except.ok.injEq] at h
        subst h
        exact List.chain'_cons.mpr ⟨Or.inl hc, hchain⟩
      · simp only [Except.ok.injEq] at h
        subst h
        exact List.chain'_cons.mpr ⟨Or.inr hc, hchain⟩
      · have h2 : (insertE c x ys >>= fun r1 => Except.ok (y :: r1)) = Except.ok r := h
        obtain ⟨r1, hr1, hr2⟩ := exceptBind_ok h2
        simp only [Except.ok.injEq] at hr2
        subst hr2
        have hc1 : List.Chain' (leC c) r1 := ih hchain.tail hr1
        refine List.chain'_cons'.mpr ⟨?_, hc1⟩
        intro z hz
        rcases insertE_head c x hr1 with hh | hh
        · rw [hh] at hz
          simp only [Option.mem_def, Option.some.injEq] at hz
          subst hz
          exact Or.inl (hswap x y hc)
        · rw [hh] at hz
          exact (List.chain'_cons'.mp hchain).1 z hz

theorem sortByE_chain (c : α → α → Option Ordering)
    (hswap : ∀ a b, c a b = some Ordering.gt → c b a = some Ordering.lt) :
    ∀ {l r : List α}, sortByE c l = Except.ok r → List.Chain' (leC c) r := by
  intro l
  induction l with
  | nil =>
    intro r h
    simp only [sortByE, Except.ok.injEq] at h
    subst h; exact List.chain'_nil
  | cons x xs ih =>
    intro r h
    have h2 : (sortByE c xs >>= fun r1 => insertE c x r1) = Except.ok r := h
    obtain ⟨r1, hr1, hr2⟩ := exceptBind_ok h2
    exact insertE_chain c hswap x (ih hr1) hr2

theorem insertE_total (c : α → α → Option Ordering) (x : α) :
    ∀ {l : List α}, (∀ b ∈ l, (c x b).isSome = true) → ∃ r, insertE c x l = Except.ok r := by
  intro l
  induction l with
  | nil => intro _; exact ⟨[x], rfl⟩
  | cons y ys ih =>
    intro htot
    have hy : (c x y).isSome = true := htot y (List.mem_cons_self y ys)
    cases hc : c x y with
    | none => rw [hc] at hy; simp at hy
    | some o =>
      cases o
      · exact ⟨x :: y :: ys, by simp only [insertE, hc]⟩
      · exact ⟨x :: y :: ys, by simp only [insertE, hc]⟩
      · obtain ⟨r1, hr1⟩ := ih (fun b hb => htot b (List.mem_cons_of_mem y hb))
        refine ⟨y :: r1, ?_⟩
        simp only [insertE, hc]
        rw [hr1]
        rfl

theorem sortByE_total (c : α → α → Option Ordering) :
    ∀ {l : List α}, (∀ a ∈ l, ∀ b ∈ l, (c a b).isSome = true) →
      ∃ r, sortByE c l = Except.ok r := by
  intro l
  induction l with
  | nil => intro _; exact ⟨[], rfl⟩
  | cons x xs ih =>
    intro htot
    obtain ⟨r1, hr1⟩ := ih (fun a ha b hb =>
      htot a (List.mem_cons_of_mem x ha) b (List.mem_cons_of_mem x hb))
    have hmem : ∀ b ∈ r1, (c x b).isSome = true := by
      intro b hb
      exact htot x (List.mem_cons_self x xs) b
        (List.mem_cons_of_mem x ((sortByE_perm c hr1).mem_iff.mp hb))
    obtain ⟨r, hr⟩ := insertE_total c x hmem
    refine ⟨r, ?_⟩
    show (sortByE c xs >>= fun r1 => insertE c x r1) = Except.ok r
    rw [hr1]
    simpa using hr

theorem sortByE_sorted_id (c : α → α → Option Ordering) :
    ∀ {l : List α}, List.Chain' (leC c) l → sortByE c l = Except.ok l := by
  intro l
  induction l with
  | nil => intro _; rfl
  | cons x xs ih =>
    intro hchain
    show (sortByE c xs >>= fun r1 => insertE c x r1) = Except.ok (x :: xs)
    rw [ih hchain.tail]
    cases xs with
    | nil => rfl
    | cons y ys =>
      have hxy : leC c x y := (List.chain'_cons.mp hchain).1
      rcases hxy with hxy | hxy <;> simp [insertE, hxy, Bind.bind, Except.bind]

theorem chain'_lt_of_le_pairwise (c : α → α → Option Ordering) :
    ∀ {l : List α}, List.Chain' (leC c) l →
      List.Pairwise (fun a b => c a b ≠ some Ordering.eq) l → List.Chain' (ltC c) l := by
  intro l
  induction l with
  | nil => intro _ _; exact List.chain'_nil
  | cons x xs ih =>
    intro hle hpair
    cases xs with
    | nil => exact List.chain'_singleton x
    | cons y ys =>
      have h1 : leC c x y := (List.chain'_cons.mp hle).1
      have h2 : c x y ≠ some Ordering.eq :=
        (List.pairwise_cons.mp hpair).1 y (List.mem_cons_self y ys)
      have hlt : ltC c x y := by
        rcases h1 with h1 | h1
        · exact h1
        · exact absurd h1 h2
      exact List.chain'_cons.mpr ⟨hlt, ih (List.chain'_cons.mp hle).2 (List.pairwise_cons.mp hpair).2⟩

/-! ## Level-side invariant machinery -/

/-- Two levels whose prices are not `f64`-equal. -/
def Rne (a b : Level) : Prop := beqF64 a.price b.price = false

theorem Rne_symm : ∀ {a b : Level}, Rne a b → Rne b a := by
  intro a b h
  unfold Rne at h ⊢
  rw [beqF64_comm]
  exact h

theorem cmpAsk_swap (a b : Level) (h : cmpAsk a b = some Ordering.gt) :
    cmpAsk b a = some Ordering.lt := cmpF64_swap_gt h

theorem cmpBid_swap (a b : Level) (h : cmpBid a b = some Ordering.gt) :
    cmpBid b a = some Ordering.lt := cmpF64_swap_gt h

theorem cmpAsk_neC_of_Rne {a b : Level} (h : Rne a b) : cmpAsk a b ≠ some Ordering.eq := by
  intro hc
  rw [show cmpAsk a b = cmpF64 a.price b.price from rfl] at hc
  rw [cmpF64_eq_iff_beq] at hc
  unfold Rne at h
  rw [h] at hc
  exact Bool.false_ne_true hc

theorem cmpBid_neC_of_Rne {a b : Level} (h : Rne a b) : cmpBid a b ≠ some Ordering.eq := by
  intro hc
  rw [show cmpBid a b = cmpF64 b.price a.price from rfl] at hc
  rw [cmpF64_eq_iff_beq, beqF64_comm] at hc
  unfold Rne at h
  rw [h] at hc
  exact Bool.false_ne_true hc

theorem cmpAsk_lt_price_ne {a b : Level} (h : ltC cmpAsk a b) : a.price ≠ b.price :=
  cmpF64_lt_ne h

theorem cmpBid_lt_price_ne {a b : Level} (h : ltC cmpBid a b) : a.price ≠ b.price :=
  (cmpF64_lt_ne h).symm

theorem cmpAsk_lt_trans {a b d : Level} (h1 : ltC cmpAsk a b) (h2 : ltC cmpAsk b d) :
    ltC cmpAsk a d := cmpF64_lt_trans h1 h2

theorem cmpBid_lt_trans {a b d : Level} (h1 : ltC cmpBid a b) (h2 : ltC cmpBid b d) :
    ltC cmpBid a d := cmpF64_lt_trans h2 h1

theorem Rne_of_lt_ask {a b : Level} (hlt : ltC cmpAsk a b) : Rne a b := by
  unfold Rne
  cases hb : beqF64 a.price b.price
  · rfl
  · exfalso
    have he := cmpF64_eq_iff_beq.mpr hb
    simp only [ltC, cmpAsk] at hlt
    rw [he] at hlt
    simp at hlt

theorem Rne_of_lt_bid {a b : Level} (hlt : ltC cmpBid a b) : Rne a b := by
  unfold Rne
  cases hb : beqF64 a.price b.price
  · rfl
  · exfalso
    have he := cmpF64_eq_iff_beq.mpr hb
    rw [beqF64_comm] at hb
    have he2 := cmpF64_eq_iff_beq.mpr hb
    simp only [ltC, cmpBid] at hlt
    rw [he2] at hlt
    simp at hlt

/-- A strict ask chain is price-wise pairwise distinct. -/
theorem pairwise_Rne_of_chain_ask {l : List Level} (h : List.Chain' (ltC cmpAsk) l) :
    List.Pairwise Rne l := by
  haveI : IsTrans Level (ltC cmpAsk) := ⟨fun a b d h1 h2 => cmpAsk_lt_trans h1 h2⟩
  exact (List.chain'_iff_pairwise.mp h).imp (fun hlt => Rne_of_lt_ask hlt)

/-- A strict bid chain is price-wise pairwise distinct. -/
theorem pairwise_Rne_of_chain_bid {l : List Level} (h : List.Chain' (ltC cmpBid) l) :
    List.Pairwise Rne l := by
  haveI : IsTrans Level (ltC cmpBid) := ⟨fun a b d h1 h2 => cmpBid_lt_trans h1 h2⟩
  exact (List.chain'_iff_pairwise.mp h).imp (fun hlt => Rne_of_lt_bid hlt)

/-- A strict ask chain has pairwise-distinct prices (the "no two levels share
the same price" invariant). -/
theorem pairwise_price_ne_of_chain_ask {l : List Level} (h : List.Chain' (ltC cmpAsk) l) :
    List.Pairwise (fun x y : Level => x.price ≠ y.price) l := by
  haveI : IsTrans Level (ltC cmpAsk) := ⟨fun a b d h1 h2 => cmpAsk_lt_trans h1 h2⟩
  exact (List.chain'_iff_pairwise.mp h).imp (fun hlt => cmpAsk_lt_price_ne hlt)

/-- A strict bid chain has pairwise-distinct prices. -/
theorem pairwise_price_ne_of_chain_bid {l : List Level} (h : List.Chain' (ltC cmpBid) l) :
    List.Pairwise (fun x y : Level => x.price ≠ y.price) l := by
  haveI : IsTrans Level (ltC cmpBid) := ⟨fun a b d h1 h2 => cmpBid_lt_trans h1 h2⟩
  exact (List.chain'_iff_pairwise.mp h).imp (fun hlt => cmpBid_lt_price_ne hlt)

/-! ## `applyEntry` unfolding equations -/

theorem exceptOk_bind {ε : Type u} {α β : Type v} (a : α) (f : α → Except ε β) :
    ((Except.ok a : Except ε α) >>= f) = f a := rfl

theorem applyEntry_skip {c : Level → Level → Option Ordering} {side : List Level} {e : Json}
    (hE : entryStrings e = Except.ok none) : applyEntry c side e = Except.ok side := by
  unfold applyEntry
  rw [hE, exceptOk_bind]

theorem applyEntry_unfold {c : Level → Level → Option Ordering} {side : List Level} {e : Json}
    {ps vs ts : String} (hE : entryStrings e = Except.ok (some (ps, vs, ts))) :
    applyEntry c side e =
      (if beqF64 ((parseF64 vs).getD (F64.fin 0)) (F64.fin 0) then
        Except.ok (side.filter fun a => !(beqF64 a.price ((parseF64 ps).getD (F64.fin 0))))
      else if side.any fun a => beqF64 a.price ((parseF64 ps).getD (F64.fin 0)) then
        Except.ok (setFirstVolume ((parseF64 ps).getD (F64.fin 0)) ((parseF64 vs).getD (F64.fin 0)) side)
      else
        sortByE c (side ++ [{ price := (parseF64 ps).getD (F64.fin 0),
                              volume := (parseF64 vs).getD (F64.fin 0) }])) := by
  unfold applyEntry
  rw [hE, exceptOk_bind]

theorem applyEntry_ok_entryStrings {c : Level → Level → Option Ordering} {side : List Level}
    {e : Json} {side' : List Level} (h : applyEntry c side e = Except.ok side') :
    ∃ x0, entryStrings e = Except.ok x0 := by
  cases hE : entryStrings e with
  | error u =>
    exfalso
    unfold applyEntry at h
    rw [hE] at h
    exact absurd h (by simp [Bind.bind, Except.bind])
  | ok x0 => exact ⟨x0, rfl⟩

/-! ## Preservation of pairwise price distinctness -/

theorem setFirstVolume_map_price (p v : F64) :
    ∀ l : List Level, (setFirstVolume p v l).map Level.price = l.map Level.price := by
  intro l
  induction l with
  | nil => rfl
  | cons a rest ih =>
    by_cases h : beqF64 a.price p = true
    · simp [setFirstVolume, h]
    · simp only [Bool.not_eq_true] at h
      simp [setFirstVolume, h, ih]

theorem pairwise_Rne_map {l : List Level} :
    List.Pairwise Rne l ↔
      List.Pairwise (fun p q : F64 => beqF64 p q = false) (l.map Level.price) := by
  rw [List.pairwise_map]
  rfl

theorem pairwise_Rne_setFirstVolume {p v : F64} {l : List Level}
    (h : List.Pairwise Rne l) : List.Pairwise Rne (setFirstVolume p v l) := by
  rw [pairwise_Rne_map, setFirstVolume_map_price]
  exact pairwise_Rne_map.mp h

theorem applyEntry_pairwise_Rne {c : Level → Level → Option Ordering} {side : List Level}
    {e : Json} {side' : List Level} (h : applyEntry c side e = Except.ok side')
    (hp : List.Pairwise Rne side) : List.Pairwise Rne side' := by
  obtain ⟨x0, hE⟩ := applyEntry_ok_entryStrings h
  cases x0 with
  | none =>
    rw [applyEntry_skip hE] at h
    simp only [Except.ok.injEq] at h
    subst h; exact hp
  | some s3 =>
    obtain ⟨ps, vs, ts⟩ := s3
    rw [applyEntry_unfold hE] at h
    by_cases hv : beqF64 ((parseF64 vs).getD (F64.fin 0)) (F64.fin 0) = true
    · rw [if_pos hv] at h
      simp only [Except.ok.injEq] at h
      subst h
      exact List.Pairwise.sublist (List.filter_sublist side) hp
    · simp only [Bool.not_eq_true] at hv
      rw [hv] at h
      simp only [Bool.false_eq_true, if_false] at h
      by_cases hany : (side.any fun a => beqF64 a.price ((parseF64 ps).getD (F64.fin 0))) = true
      · rw [if_pos hany] at h
        simp only [Except.ok.injEq] at h
        subst h
        exact pairwise_Rne_setFirstVolume hp
      · simp only [Bool.not_eq_true] at hany
        rw [hany] at h
        simp only [Bool.false_eq_true, if_false] at h
        have happ : List.Pairwise Rne
            (side ++ [{ price := (parseF64 ps).getD (F64.fin 0),
                        volume := (parseF64 vs).getD (F64.fin 0) }]) := by
          rw [List.pairwise_append]
          refine ⟨hp, List.pairwise_singleton _ _, ?_⟩
          intro a ha b hb
          simp only [List.mem_singleton] at hb
          subst hb
          show beqF64 a.price ((parseF64 ps).getD (F64.fin 0)) = false
          exact Bool.eq_false_iff.mpr (List.any_eq_false.mp hany a ha)
        exact ((sortByE_perm c h).pairwise_iff (fun hab => Rne_symm hab)).mpr happ

theorem foldlM_applyEntry_pairwise {c : Level → Level → Option Ordering} :
    ∀ (es : List Json) {side side' : List Level},
      List.foldlM (applyEntry c) side es = Except.ok side' →
      List.Pairwise Rne side → List.Pairwise Rne side' := by
  intro es
  induction es with
  | nil =>
    intro side side' h hp
    simp only [List.foldlM_nil] at h
    have h2 : (Except.ok side : Except Unit (List Level)) = Except.ok side' := h
    simp only [Except.ok.injEq] at h2
    subst h2; exact hp
  | cons e es ih =>
    intro side side' h hp
    simp only [List.foldlM_cons] at h
    obtain ⟨s1, h1, h2⟩ := exceptBind_ok h
    exact ih h2 (applyEntry_pairwise_Rne h1 hp)

/-- A completed sort of a pairwise-distinct side is strictly sorted and
length-preserving. -/
theorem sortByE_strict (c : Level → Level → Option Ordering)
    (hswap : ∀ a b, c a b = some Ordering.gt → c b a = some Ordering.lt)
    (hneC : ∀ {a b : Level}, Rne a b → c a b ≠ some Ordering.eq)
    {l r : List Level} (h : sortByE c l = Except.ok r) (hp : List.Pairwise Rne l) :
    List.Chain' (ltC c) r ∧ r.length = l.length := by
  have hle := sortByE_chain c hswap h
  have hperm := sortByE_perm c h
  have hpr : List.Pairwise Rne r := (hperm.pairwise_iff (fun hab => Rne_symm hab)).mpr hp
  exact ⟨chain'_lt_of_le_pairwise c hle (hpr.imp (fun hab => hneC hab)), hperm.length_eq⟩

/-- The book invariant: strictly ascending asks, strictly descending bids,
both sides within depth. -/
def BookInv (b : OrderBook) : Prop :=
  List.Chain' (ltC cmpAsk) b.asks ∧ List.Chain' (ltC cmpBid) b.bids ∧
  b.asks.length ≤ b.depth ∧ b.bids.length ≤ b.depth

theorem truncate_inv {b1 b' : OrderBook}
    (hpa : List.Pairwise Rne b1.asks) (hpb : List.Pairwise Rne b1.bids)
    (h : b1.truncate_to_depth = Except.ok b') :
    BookInv b' ∧ b'.depth = b1.depth := by
  unfold OrderBook.truncate_to_depth at h
  obtain ⟨asks2, hA, h⟩ := exceptBind_ok h
  obtain ⟨bids2, hB, h⟩ := exceptBind_ok h
  have h2 : (Except.ok { depth := b1.depth, bids := bids2, asks := asks2 } :
      Except Unit OrderBook) = Except.ok b' := h
  simp only [Except.ok.injEq] at h2
  subst h2
  have hta : List.Pairwise Rne (b1.asks.take b1.depth) :=
    List.Pairwise.sublist (List.take_sublist _ _) hpa
  have htb : List.Pairwise Rne (b1.bids.take b1.depth) :=
    List.Pairwise.sublist (List.take_sublist _ _) hpb
  obtain ⟨hca, hla⟩ := sortByE_strict cmpAsk cmpAsk_swap (fun h => cmpAsk_neC_of_Rne h) hA hta
  obtain ⟨hcb, hlb⟩ := sortByE_strict cmpBid cmpBid_swap (fun h => cmpBid_neC_of_Rne h) hB htb
  refine ⟨⟨hca, hcb, ?_, ?_⟩, rfl⟩
  · rw [hla]; exact List.length_take_le _ _
  · rw [hlb]; exact List.length_take_le _ _

theorem updateSide_pairwise {c : Level → Level → Option Ordering} {cur : List Level}
    {ud : Json} {key : String} {out : List Level}
    (h : updateSide c cur ud key = Except.ok out) (hp : List.Pairwise Rne cur) :
    List.Pairwise Rne out := by
  unfold updateSide at h
  cases hg : (ud.getStr key).bind Json.as_arr with
  | none =>
    rw [hg] at h
    have h2 : (Except.ok cur : Except Unit (List Level)) = Except.ok out := h
    simp only [Except.ok.injEq] at h2
    subst h2; exact hp
  | some entries =>
    rw [hg] at h
    have h2 : entries.foldlM (applyEntry c) cur = Except.ok out := h
    exact foldlM_applyEntry_pairwise entries h2 hp

theorem update_inv {b : OrderBook} {m : Json} {b' : OrderBook}
    (hpa : List.Pairwise Rne b.asks) (hpb : List.Pairwise Rne b.bids)
    (h : b.update m = Except.ok b') :
    BookInv b' ∧ b'.depth = b.depth := by
  unfold OrderBook.update at h
  cases hm : m.getIdx 1 with
  | none =>
    rw [hm] at h
    have h2 : b.truncate_to_depth = Except.ok b' := h
    exact truncate_inv hpa hpb h2
  | some ud =>
    rw [hm] at h
    have h2 : (updateSide cmpAsk b.asks ud "a" >>= fun asks1 =>
        updateSide cmpBid b.bids ud "b" >>= fun bids1 =>
        OrderBook.truncate_to_depth { depth := b.depth, bids := bids1, asks := asks1 }) =
        Except.ok b' := h
    obtain ⟨asks1, hA, h3⟩ := exceptBind_ok h2
    obtain ⟨bids1, hB, h4⟩ := exceptBind_ok h3
    have hpa1 := updateSide_pairwise hA hpa
    have hpb1 := updateSide_pairwise hB hpb
    exact @truncate_inv { depth := b.depth, bids := bids1, asks := asks1 } _ hpa1 hpb1 h4

theorem parseSide_length (entries : List Json) (depth : Nat) :
    (parseSide entries depth).length ≤ depth := by
  unfold parseSide
  exact le_trans (List.length_filterMap_le _ _) (List.length_take_le _ _)

theorem snapSide_length {cur : List Level} (snapshot : Json) (key : String) {depth : Nat}
    (hcur : cur.length ≤ depth) : (snapSide cur snapshot key depth).length ≤ depth := by
  unfold snapSide
  cases (snapshot.getStr key).bind Json.as_arr with
  | none => exact hcur
  | some entries => exact parseSide_length entries depth

theorem initialize_inv {b : OrderBook} {snap : Json} {b' : OrderBook}
    (hpa : List.Pairwise Rne (snapSide b.asks snap "as" b.depth))
    (hpb : List.Pairwise Rne (snapSide b.bids snap "bs" b.depth))
    (hla : (snapSide b.asks snap "as" b.depth).length ≤ b.depth)
    (hlb : (snapSide b.bids snap "bs" b.depth).length ≤ b.depth)
    (h : OrderBook.initialize b snap = Except.ok b') :
    BookInv b' ∧ b'.depth = b.depth := by
  unfold OrderBook.initialize at h
  have h2 : (sortByE cmpBid (snapSide b.bids snap "bs" b.depth) >>= fun bids1 =>
      sortByE cmpAsk (snapSide b.asks snap "as" b.depth) >>= fun asks1 =>
      (Except.ok { depth := b.depth, bids := bids1, asks := asks1 } :
        Except Unit OrderBook)) = Except.ok b' := h
  obtain ⟨bids1, hB, h3⟩ := exceptBind_ok h2
  obtain ⟨asks1, hA, h4⟩ := exceptBind_ok h3
  simp only [Except.ok.injEq] at h4
  subst h4
  obtain ⟨hca, hlena⟩ := sortByE_strict cmpAsk cmpAsk_swap (fun h => cmpAsk_neC_of_Rne h) hA hpa
  obtain ⟨hcb, hlenb⟩ := sortByE_strict cmpBid cmpBid_swap (fun h => cmpBid_neC_of_Rne h) hB hpb
  exact ⟨⟨hca, hcb, by rw [hlena]; exact hla, by rw [hlenb]; exact hlb⟩, rfl⟩

/-- One whole session: `initialize` from the snapshot on a fresh book of the
given depth, then the update messages in arrival order. -/
def runOps (d : Nat) (snapshot : Json) (msgs : List Json) : Except Unit OrderBook := do
  let b0 ← OrderBook.initialize (OrderBook.new d) snapshot
  msgs.foldlM OrderBook.update b0

theorem foldlM_update_inv :
    ∀ (msgs : List Json) {b0 b : OrderBook},
      List.foldlM OrderBook.update b0 msgs = Except.ok b →
      BookInv b0 → BookInv b ∧ b.depth = b0.depth := by
  intro msgs
  induction msgs with
  | nil =>
    intro b0 b h hI
    simp only [List.foldlM_nil] at h
    have h2 : (Except.ok b0 : Except Unit OrderBook) = Except.ok b := h
    simp only [Except.ok.injEq] at h2
    subst h2; exact ⟨hI, rfl⟩
  | cons m ms ih =>
    intro b0 b h hI
    simp only [List.foldlM_cons] at h
    obtain ⟨b1, h1, h2⟩ := exceptBind_ok h
    have hstep := update_inv (pairwise_Rne_of_chain_ask hI.1)
      (pairwise_Rne_of_chain_bid hI.2.1) h1
    have := ih h2 hstep.1
    exact ⟨this.1, by rw [this.2, hstep.2]⟩

instance (a b : Level) : Decidable (Rne a b) := by
  unfold Rne; infer_instance

instance {ε α : Type u} [DecidableEq ε] [DecidableEq α] : DecidableEq (Except ε α)
  | Except.error a, Except.error b =>
    match decEq a b with
    | isTrue h => isTrue (by rw [h])
    | isFalse h => isFalse (fun hc => h (Except.error.inj hc))
  | Except.error _, Except.ok _ => isFalse (fun hc => Except.noConfusion hc)
  | Except.ok _, Except.error _ => isFalse (fun hc => Except.noConfusion hc)
  | Except.ok a, Except.ok b =>
    match decEq a b with
    | isTrue h => isTrue (by rw [h])
    | isFalse h => isFalse (fun hc => h (Except.ok.inj hc))

/-- A `Decidable` instance for `List.Chain'` that evaluates by structural
recursion (the library one is stated by rewriting and does not reduce). -/
def decChain' {α : Type u} (R : α → α → Prop) [dR : DecidableRel R] :
    (l : List α) → Decidable (List.Chain' R l)
  | [] => isTrue List.chain'_nil
  | [a] => isTrue (List.chain'_singleton a)
  | a :: b :: t =>
    match dR a b, decChain' R (b :: t) with
    | isTrue h1, isTrue h2 => isTrue (List.chain'_cons.mpr ⟨h1, h2⟩)
    | isFalse h1, _ => isFalse (fun hc => h1 (List.chain'_cons.mp hc).1)
    | _, isFalse h2 => isFalse (fun hc => h2 (List.chain'_cons.mp hc).2)

instance (priority := 2000) {α : Type u} (R : α → α → Prop) [DecidableRel R] (l : List α) :
    Decidable (List.Chain' R l) := decChain' R l

/-! ## Claim C1 -/

/-- A `[price, volume, timestamp]` wire triple of decimal strings. -/
def mkEntry3 (p v t : String) : Json := Json.arr [Json.str p, Json.str v, Json.str t]

/-- A four-element diff entry carrying the optional republish flag. -/
def mkEntry4 (p v t f : String) : Json := Json.arr [Json.str p, Json.str v, Json.str t, Json.str f]

/-- C1, amended: for every session (initialize on a fresh book of depth `d`
followed by any number of updates) whose snapshot parses to pairwise
`f64`-distinct prices on each side, after each completed operation the asks
are strictly ascending, the bids strictly descending, each side has length at
most `d`, and no two levels on a side share a price.  (The distinctness
hypothesis is forced by `c1_counterexample_duplicate_snapshot`: the
initializer never deduplicates, so a snapshot repeating a price violates the
claim as stated.) -/
theorem c1_invariants_hold (d : Nat) (snapshot : Json) (msgs : List Json) (b : OrderBook)
    (hda : List.Pairwise Rne (snapSide [] snapshot "as" d))
    (hdb : List.Pairwise Rne (snapSide [] snapshot "bs" d))
    (hrun : runOps d snapshot msgs = Except.ok b) :
    List.Chain' (ltC cmpAsk) b.asks ∧ List.Chain' (ltC cmpBid) b.bids ∧
    b.asks.length ≤ d ∧ b.bids.length ≤ d ∧
    List.Pairwise (fun x y : Level => x.price ≠ y.price) b.asks ∧
    List.Pairwise (fun x y : Level => x.price ≠ y.price) b.bids := by
  unfold runOps at hrun
  have h2 : ( OrderBook.initialize (OrderBook.new d) snapshot >>= fun b0 =>
      msgs.foldlM OrderBook.update b0) = Except.ok b := hrun
  obtain ⟨b0, hinit, hfold⟩ := exceptBind_ok h2
  have hI := @initialize_inv (OrderBook.new d) snapshot b0 hda hdb
    (snapSide_length _ _ (Nat.zero_le d)) (snapSide_length _ _ (Nat.zero_le d)) hinit
  obtain ⟨hI0, hd0⟩ := hI
  obtain ⟨⟨hca, hcb, hla, hlb⟩, hdeq⟩ := foldlM_update_inv msgs hfold hI0
  have hdb2 : b.depth = d := by rw [hdeq, hd0]; rfl
  exact ⟨hca, hcb, by rw [← hdb2]; exact hla, by rw [← hdb2]; exact hlb,
    pairwise_price_ne_of_chain_ask hca, pairwise_price_ne_of_chain_bid hcb⟩

/-- A snapshot whose ask list repeats the price `5.0`. -/
def c1DupSnap : Json :=
  Json.obj [("as", Json.arr [mkEntry3 "5.0" "1.0" "t0", mkEntry3 "5.0" "2.0" "t1"])]

/-- C1 as stated is false: initializing from a snapshot that repeats a price
completes normally but leaves two ask levels with the same price, so the asks
are not strictly ascending and the no-duplicate invariant fails. -/
theorem c1_counterexample_duplicate_snapshot :
    runOps 10 c1DupSnap [] =
      Except.ok { depth := 10, bids := [],
                  asks := [{ price := F64.fin 5, volume := F64.fin 1 },
                           { price := F64.fin 5, volume := F64.fin 2 }] } ∧
    ¬ List.Pairwise (fun x y : Level => x.price ≠ y.price)
        [{ price := F64.fin 5, volume := F64.fin 1 },
         { price := F64.fin 5, volume := F64.fin 2 }] ∧
    ¬ List.Chain' (ltC cmpAsk)
        [{ price := F64.fin 5, volume := F64.fin 1 },
         { price := F64.fin 5, volume := F64.fin 2 }] := by
  refine ⟨by decide, by decide, by decide⟩

/-- A well-behaved two-level-per-side snapshot used to instantiate `c1_invariants_hold`. -/
def c1Snap : Json :=
  Json.obj [
    ("as", Json.arr [mkEntry3 "1.5" "2.0" "t0", mkEntry3 "1.0" "1.0" "t1"]),
    ("bs", Json.arr [mkEntry3 "0.5" "1.0" "t2", mkEntry3 "0.9" "1.0" "t3"])]

/-- An update inserting the ask `1.2 @ 3.0`. -/
def c1Msg : Json :=
  Json.arr [Json.num 0, Json.obj [("a", Json.arr [mkEntry3 "1.2" "3.0" "t4"])]]

/-- The book `runOps 10 c1Snap [c1Msg]` produces. -/
def c1Book : OrderBook :=
  { depth := 10,
    bids := [{ price := F64.fin (mkRat 9 10), volume := F64.fin 1 },
             { price := F64.fin (mkRat 1 2), volume := F64.fin 1 }],
    asks := [{ price := F64.fin 1, volume := F64.fin 1 },
             { price := F64.fin (mkRat 6 5), volume := F64.fin 3 },
             { price := F64.fin (mkRat 3 2), volume := F64.fin 2 }] }

theorem c1_invariants_hold_witness :
    List.Pairwise Rne (snapSide [] c1Snap "as" 10) ∧
    List.Pairwise Rne (snapSide [] c1Snap "bs" 10) ∧
    runOps 10 c1Snap [c1Msg] = Except.ok c1Book ∧
    (List.Chain' (ltC cmpAsk) c1Book.asks ∧ List.Chain' (ltC cmpBid) c1Book.bids ∧
     c1Book.asks.length ≤ 10 ∧ c1Book.bids.length ≤ 10 ∧
     List.Pairwise (fun x y : Level => x.price ≠ y.price) c1Book.asks ∧
     List.Pairwise (fun x y : Level => x.price ≠ y.price) c1Book.bids) :=
  ⟨by decide, by decide, by decide,
    c1_invariants_hold 10 c1Snap [c1Msg] c1Book (by decide) (by decide) (by decide)⟩

/-! ## Claim C2 -/

/-- The fixed snapshot payload of the checksum regression oracle: ten asks at
`0.05005 … 0.05050` and ten bids at `0.05000 … 0.04950`, each with volume
`0.00000500`. -/
def checksumSnap : Json := Json.obj [
  ("as", Json.arr [
    mkEntry3 "0.05005" "0.00000500" "1582905487.684110",
    mkEntry3 "0.05010" "0.00000500" "1582905486.187983",
    mkEntry3 "0.05015" "0.00000500" "1582905484.480241",
    mkEntry3 "0.05020" "0.00000500" "1582905486.645658",
    mkEntry3 "0.05025" "0.00000500" "1582905486.859009",
    mkEntry3 "0.05030" "0.00000500" "1582905488.601486",
    mkEntry3 "0.05035" "0.00000500" "1582905488.357312",
    mkEntry3 "0.05040" "0.00000500" "1582905488.785484",
    mkEntry3 "0.05045" "0.00000500" "1582905485.302661",
    mkEntry3 "0.05050" "0.00000500" "1582905486.157467"]),
  ("bs", Json.arr [
    mkEntry3 "0.05000" "0.00000500" "1582905487.439814",
    mkEntry3 "0.04995" "0.00000500" "1582905485.119396",
    mkEntry3 "0.04990" "0.00000500" "1582905486.432052",
    mkEntry3 "0.04980" "0.00000500" "1582905480.609351",
    mkEntry3 "0.04975" "0.00000500" "1582905476.793880",
    mkEntry3 "0.04970" "0.00000500" "1582905486.767461",
    mkEntry3 "0.04965" "0.00000500" "1582905481.767528",
    mkEntry3 "0.04960" "0.00000500" "1582905487.378907",
    mkEntry3 "0.04955" "0.00000500" "1582905483.626664",
    mkEntry3 "0.04950" "0.00000500" "1582905488.509872"])]

/-- The book the regression snapshot initializes to. -/
def c2Book : OrderBook :=
  { depth := 10,
    bids := [5000, 4995, 4990, 4980, 4975, 4970, 4965, 4960, 4955, 4950].map (fun p =>
      { price := F64.fin (mkRat p 100000), volume := F64.fin (mkRat 5 1000000) }),
    asks := [5005, 5010, 5015, 5020, 5025, 5030, 5035, 5040, 5045, 5050].map (fun p =>
      { price := F64.fin (mkRat p 100000), volume := F64.fin (mkRat 5 1000000) }) }

/-- First 35 bytes of the checksum input string. -/
def c2Bytes1 : List Nat :=
  [53, 48, 48, 53, 53, 48, 48, 53, 48, 49, 48, 53, 48, 48, 53, 48, 49, 53, 53, 48,
   48, 53, 48, 50, 48, 53, 48, 48, 53, 48, 50, 53, 53, 48, 48]

/-- Second 35 bytes of the checksum input string. -/
def c2Bytes2 : List Nat :=
  [53, 48, 51, 48, 53, 48, 48, 53, 48, 51, 53, 53, 48, 48, 53, 48, 52, 48, 53, 48,
   48, 53, 48, 52, 53, 53, 48, 48, 53, 48, 53, 48, 53, 48, 48]

/-- Third 35 bytes of the checksum input string. -/
def c2Bytes3 : List Nat :=
  [53, 48, 48, 48, 53, 48, 48, 52, 57, 57, 53, 53, 48, 48, 52, 57, 57, 48, 53, 48,
   48, 52, 57, 56, 48, 53, 48, 48, 52, 57, 55, 53, 53, 48, 48]

/-- Last 35 bytes of the checksum input string. -/
def c2Bytes4 : List Nat :=
  [52, 57, 55, 48, 53, 48, 48, 52, 57, 54, 53, 53, 48, 48, 52, 57, 54, 48, 53, 48,
   48, 52, 57, 53, 53, 53, 48, 48, 52, 57, 53, 48, 53, 48, 48]

set_option maxRecDepth 4000 in
/-- C2: initializing a depth-10 book from the fixed regression snapshot and
computing the checksum yields exactly `974947235`.  (The CRC-32 fold is
evaluated in four chunks to keep each reduction shallow.) -/
theorem c2_checksum_oracle :
    ( OrderBook.initialize (OrderBook.new 10) checksumSnap).map OrderBook.calculate_checksum =
      Except.ok 974947235 := by
  have hb : OrderBook.initialize (OrderBook.new 10) checksumSnap = Except.ok c2Book := by decide
  rw [hb]
  have hstr : strBytes (String.join
      ((c2Book.asks.take 10 ++ c2Book.bids.take 10).map levelChecksumStr)) =
      c2Bytes1 ++ (c2Bytes2 ++ (c2Bytes3 ++ c2Bytes4)) := by decide
  have h1 : List.foldl crc32Byte 0xFFFFFFFF c2Bytes1 = 1740517469 := by decide
  have h2 : List.foldl crc32Byte 1740517469 c2Bytes2 = 1825990073 := by decide
  have h3 : List.foldl crc32Byte 1825990073 c2Bytes3 = 861978577 := by decide
  have h4 : List.foldl crc32Byte 861978577 c2Bytes4 = 3320020060 := by decide
  show Except.ok c2Book.calculate_checksum = Except.ok 974947235
  unfold OrderBook.calculate_checksum crc32
  rw [hstr, List.foldl_append, List.foldl_append, List.foldl_append, h1, h2, h3, h4]
  decide

/-! ## Claim C8 -/

/-- The documented XBT/USD snapshot payload. -/
def xbtSnapshot : Json := Json.obj [
  ("as", Json.arr [
    mkEntry3 "5711.80000" "8.13439401" "1557070784.848047",
    mkEntry3 "5712.20000" "2.00000000" "1557070757.056750",
    mkEntry3 "5712.80000" "0.30000000" "1557070783.806432",
    mkEntry3 "5713.00000" "3.29800000" "1557070774.281619",
    mkEntry3 "5713.10000" "1.00000000" "1557070741.315583",
    mkEntry3 "5713.90000" "1.00000000" "1557070698.840502",
    mkEntry3 "5714.70000" "0.50000000" "1557070743.861074",
    mkEntry3 "5715.20000" "1.00000000" "1557070697.871150",
    mkEntry3 "5716.60000" "1.22700000" "1557070775.294557",
    mkEntry3 "5716.80000" "0.35000000" "1557070749.823148"]),
  ("bs", Json.arr [
    mkEntry3 "5711.70000" "0.00749800" "1557070712.848376",
    mkEntry3 "5709.20000" "3.30000000" "1557070766.260894",
    mkEntry3 "5708.30000" "0.75483907" "1557070781.425374",
    mkEntry3 "5708.20000" "5.00000000" "1557070780.762871",
    mkEntry3 "5707.80000" "2.50000000" "1557070722.912548",
    mkEntry3 "5707.40000" "4.33000000" "1557070732.546143",
    mkEntry3 "5707.00000" "0.00200000" "1557070604.962840",
    mkEntry3 "5706.90000" "1.17300000" "1557070715.529722",
    mkEntry3 "5706.40000" "0.85600000" "1557070777.204262",
    mkEntry3 "5706.30000" "1.00000000" "1557070753.118938"])]

/-- The update message: set bid `5709.20` to `3.0`, delete bid `5708.20`,
insert bid `5705.90 @ 7.624` (republish-flagged). -/
def xbtUpdate1 : Json := Json.arr [Json.num 0,
  Json.obj [
    ("b", Json.arr [
      mkEntry3 "5709.20000" "3.00000000" "1557070785.898642",
      mkEntry3 "5708.20000" "0.00000000" "1557070786.010118",
      mkEntry4 "5705.90000" "7.62400000" "1557070783.582385" "r"]),
    ("c", Json.str "2470128591")],
  Json.str "book-10", Json.str "XBT/USD"]

/-- The book state right after the XBT/USD snapshot. -/
def xbtBook0 : OrderBook :=
  { depth := 10,
    bids := [
      { price := F64.fin (mkRat 57117 10), volume := F64.fin (mkRat 7498 1000000) },
      { price := F64.fin (mkRat 57092 10), volume := F64.fin (mkRat 33 10) },
      { price := F64.fin (mkRat 57083 10), volume := F64.fin (mkRat 75483907 100000000) },
      { price := F64.fin (mkRat 57082 10), volume := F64.fin (mkRat 5 1) },
      { price := F64.fin (mkRat 57078 10), volume := F64.fin (mkRat 25 10) },
      { price := F64.fin (mkRat 57074 10), volume := F64.fin (mkRat 433 100) },
      { price := F64.fin (mkRat 57070 10), volume := F64.fin (mkRat 2 1000) },
      { price := F64.fin (mkRat 57069 10), volume := F64.fin (mkRat 1173 1000) },
      { price := F64.fin (mkRat 57064 10), volume := F64.fin (mkRat 856 1000) },
      { price := F64.fin (mkRat 57063 10), volume := F64.fin (mkRat 1 1) }],
    asks := [
      { price := F64.fin (mkRat 57118 10), volume := F64.fin (mkRat 813439401 100000000) },
      { price := F64.fin (mkRat 57122 10), volume := F64.fin (mkRat 2 1) },
      { price := F64.fin (mkRat 57128 10), volume := F64.fin (mkRat 3 10) },
      { price := F64.fin (mkRat 57130 10), volume := F64.fin (mkRat 3298 1000) },
      { price := F64.fin (mkRat 57131 10), volume := F64.fin (mkRat 1 1) },
      { price := F64.fin (mkRat 57139 10), volume := F64.fin (mkRat 1 1) },
      { price := F64.fin (mkRat 57147 10), volume := F64.fin (mkRat 5 10) },
      { price := F64.fin (mkRat 57152 10), volume := F64.fin (mkRat 1 1) },
      { price := F64.fin (mkRat 57166 10), volume := F64.fin (mkRat 1227 1000) },
      { price := F64.fin (mkRat 57168 10), volume := F64.fin (mkRat 35 100) }] }

/-- The bid side the claim expects after the update: `5711.70, 5709.20 (3.0),
5708.30, 5707.80, 5707.40, 5707.00, 5706.90, 5706.40, 5706.30, 5705.90`. -/
def xbtBidsAfter1 : List Level := [
  { price := F64.fin (mkRat 57117 10), volume := F64.fin (mkRat 7498 1000000) },
  { price := F64.fin (mkRat 57092 10), volume := F64.fin (mkRat 3 1) },
  { price := F64.fin (mkRat 57083 10), volume := F64.fin (mkRat 75483907 100000000) },
  { price := F64.fin (mkRat 57078 10), volume := F64.fin (mkRat 25 10) },
  { price := F64.fin (mkRat 57074 10), volume := F64.fin (mkRat 433 100) },
  { price := F64.fin (mkRat 57070 10), volume := F64.fin (mkRat 2 1000) },
  { price := F64.fin (mkRat 57069 10), volume := F64.fin (mkRat 1173 1000) },
  { price := F64.fin (mkRat 57064 10), volume := F64.fin (mkRat 856 1000) },
  { price := F64.fin (mkRat 57063 10), volume := F64.fin (mkRat 1 1) },
  { price := F64.fin (mkRat 57059 10), volume := F64.fin (mkRat 7624 1000) }]

set_option maxRecDepth 4000 in
/-- C8: starting from the documented XBT/USD snapshot, the single update that
sets bid `5709.20` to volume `3.0`, deletes bid `5708.20` and inserts bid
`5705.90 @ 7.624` yields exactly the ten expected bids in descending order
with the ask side unchanged. -/
theorem c8_xbt_scenario :
    OrderBook.initialize (OrderBook.new 10) xbtSnapshot = Except.ok xbtBook0 ∧
    xbtBook0.update xbtUpdate1 =
      Except.ok { depth := 10, bids := xbtBidsAfter1, asks := xbtBook0.asks } ∧
    xbtBidsAfter1.length = 10 := by
  refine ⟨by decide, by decide, by decide⟩

/-! ## Claim C10 -/

/-- A snapshot whose first ask price is the string `"NaN"`, which Rust's
`f64` parser accepts. -/
def nanSnapshot : Json :=
  Json.obj [("as", Json.arr [mkEntry3 "NaN" "1.0" "t0", mkEntry3 "1.0" "1.0" "t1"])]

/-- C10: the string `"NaN"` parses successfully to `NaN`, and initializing
from a snapshot carrying it makes the sort comparator's
`partial_cmp(..).unwrap()` panic, so the call aborts instead of degrading
gracefully. -/
theorem c10_nan_panics :
    parseF64 "NaN" = some F64.nan ∧
    OrderBook.initialize (OrderBook.new 10) nanSnapshot = Except.error () := by
  refine ⟨by decide, by decide⟩

/-! ## Claim C7 -/

/-- An update message whose single ask diff entry is the empty array. -/
def shortEntryMsg : Json := Json.arr [Json.num 0, Json.obj [("a", Json.arr [Json.arr []])]]

/-- C7 as stated is false: an update diff entry that is an array with fewer
than three elements makes the `ask[0]` `Vec` indexing panic, so this update
call aborts rather than degrading to `0.0` values. -/
theorem c7_counterexample_short_entry :
    (OrderBook.new 10).update shortEntryMsg = Except.error () := by decide

/-! ## Single-entry update messages and truncate evaluation -/

/-- An update message carrying exactly one ask diff entry. -/
def mkAskMsg (e : Json) : Json := Json.arr [Json.num 0, Json.obj [("a", Json.arr [e])]]

/-- An update message carrying exactly one bid diff entry. -/
def mkBidMsg (e : Json) : Json := Json.arr [Json.num 0, Json.obj [("b", Json.arr [e])]]

theorem update_mkAskMsg (b : OrderBook) (e : Json) {side' : List Level}
    (hA : applyEntry cmpAsk b.asks e = Except.ok side') :
    b.update (mkAskMsg e) =
      OrderBook.truncate_to_depth { depth := b.depth, bids := b.bids, asks := side' } := by
  have h0 : b.update (mkAskMsg e) =
      (updateSide cmpAsk b.asks (Json.obj [("a", Json.arr [e])]) "a" >>= fun asks1 =>
        OrderBook.truncate_to_depth { depth := b.depth, bids := b.bids, asks := asks1 }) := rfl
  rw [h0]
  have h2 : updateSide cmpAsk b.asks (Json.obj [("a", Json.arr [e])]) "a" = Except.ok side' := by
    show [e].foldlM (applyEntry cmpAsk) b.asks = Except.ok side'
    simp only [List.foldlM_cons, List.foldlM_nil, hA, exceptOk_bind]
    rfl
  rw [h2, exceptOk_bind]

theorem update_mkBidMsg (b : OrderBook) (e : Json) {side' : List Level}
    (hB : applyEntry cmpBid b.bids e = Except.ok side') :
    b.update (mkBidMsg e) =
      OrderBook.truncate_to_depth { depth := b.depth, bids := side', asks := b.asks } := by
  have h0 : b.update (mkBidMsg e) =
      (updateSide cmpBid b.bids (Json.obj [("b", Json.arr [e])]) "b" >>= fun bids1 =>
        OrderBook.truncate_to_depth { depth := b.depth, bids := bids1, asks := b.asks }) := rfl
  rw [h0]
  have h2 : updateSide cmpBid b.bids (Json.obj [("b", Json.arr [e])]) "b" = Except.ok side' := by
    show [e].foldlM (applyEntry cmpBid) b.bids = Except.ok side'
    simp only [List.foldlM_cons, List.foldlM_nil, hB, exceptOk_bind]
    rfl
  rw [h2, exceptOk_bind]

theorem truncate_eval {d : Nat} {bids asks : List Level}
    (ha : List.Chain' (leC cmpAsk) asks) (hb : List.Chain' (leC cmpBid) bids)
    (hlb : bids.length ≤ d) :
    OrderBook.truncate_to_depth { depth := d, bids := bids, asks := asks } =
      Except.ok { depth := d, bids := bids, asks := asks.take d } := by
  show (sortByE cmpAsk (asks.take d) >>= fun asks2 =>
      sortByE cmpBid (bids.take d) >>= fun bids2 =>
      (Except.ok { depth := d, bids := bids2, asks := asks2 } : Except Unit OrderBook)) =
      Except.ok { depth := d, bids := bids, asks := asks.take d }
  rw [List.take_of_length_le hlb, sortByE_sorted_id cmpAsk (ha.take d),
    sortByE_sorted_id cmpBid hb, exceptOk_bind, exceptOk_bind]

theorem truncate_id {b : OrderBook}
    (ha : List.Chain' (leC cmpAsk) b.asks) (hb : List.Chain' (leC cmpBid) b.bids)
    (hla : b.asks.length ≤ b.depth) (hlb : b.bids.length ≤ b.depth) :
    b.truncate_to_depth = Except.ok b := by
  have h := @truncate_eval b.depth b.bids b.asks ha hb hlb
  rw [List.take_of_length_le hla] at h
  exact h

/-! ## Side decomposition lemmas -/

theorem beq_price_unique {x L : Level} {p : F64} (hx : Rne x L)
    (hL : beqF64 L.price p = true) : beqF64 x.price p = false := by
  cases hxp : beqF64 x.price p
  · rfl
  · exfalso
    have hpL : beqF64 p L.price = true := by rw [beqF64_comm]; exact hL
    have := beqF64_trans hxp hpL
    unfold Rne at hx
    rw [hx] at this
    exact Bool.false_ne_true this

theorem pairwise_decomp_pre {pre post : List Level} {L : Level} {p : F64}
    (hp : List.Pairwise Rne (pre ++ L :: post)) (hL : beqF64 L.price p = true) :
    ∀ x ∈ pre, beqF64 x.price p = false := by
  intro x hx
  have hcross := (List.pairwise_append.mp hp).2.2
  exact beq_price_unique (hcross x hx L (List.mem_cons_self L post)) hL

theorem pairwise_decomp_post {pre post : List Level} {L : Level} {p : F64}
    (hp : List.Pairwise Rne (pre ++ L :: post)) (hL : beqF64 L.price p = true) :
    ∀ x ∈ post, beqF64 x.price p = false := by
  intro x hx
  have h2 := (List.pairwise_append.mp hp).2.1
  exact beq_price_unique (Rne_symm ((List.pairwise_cons.mp h2).1 x hx)) hL

theorem filter_decomp {pre post : List Level} {L : Level} {p : F64}
    (hL : beqF64 L.price p = true)
    (hpre : ∀ x ∈ pre, beqF64 x.price p = false)
    (hpost : ∀ x ∈ post, beqF64 x.price p = false) :
    (pre ++ L :: post).filter (fun a => !(beqF64 a.price p)) = pre ++ post := by
  rw [List.filter_append]
  have h1 : pre.filter (fun a => !(beqF64 a.price p)) = pre :=
    List.filter_eq_self.mpr (fun a ha => by rw [hpre a ha]; rfl)
  have h2 : (L :: post).filter (fun a => !(beqF64 a.price p)) = post := by
    rw [List.filter_cons_of_neg (by rw [hL]; simp)]
    exact List.filter_eq_self.mpr (fun a ha => by rw [hpost a ha]; rfl)
  rw [h1, h2]

theorem setFirstVolume_decomp {pre post : List Level} {L : Level} {p v : F64}
    (hL : beqF64 L.price p = true)
    (hpre : ∀ x ∈ pre, beqF64 x.price p = false) :
    setFirstVolume p v (pre ++ L :: post) =
      pre ++ { price := L.price, volume := v } :: post := by
  induction pre with
  | nil => simp [setFirstVolume, hL]
  | cons a rest ih =>
    have ha : beqF64 a.price p = false := hpre a (List.mem_cons_self a rest)
    simp only [List.cons_append, setFirstVolume, ha, Bool.false_eq_true, if_false]
    exact congrArg (fun t => a :: t) (ih (fun x hx => hpre x (List.mem_cons_of_mem a hx)))

/-- Transfer a strict ask chain along price-preserving surgery. -/
theorem chain_ask_of_map_price {l1 l2 : List Level}
    (hm : l1.map Level.price = l2.map Level.price)
    (h : List.Chain' (ltC cmpAsk) l1) : List.Chain' (ltC cmpAsk) l2 := by
  have h1 : List.Chain' (fun p q : F64 => cmpF64 p q = some Ordering.lt)
      (l1.map Level.price) := (List.chain'_map Level.price).mpr h
  rw [hm] at h1
  exact (List.chain'_map Level.price).mp h1

theorem chain_bid_of_map_price {l1 l2 : List Level}
    (hm : l1.map Level.price = l2.map Level.price)
    (h : List.Chain' (ltC cmpBid) l1) : List.Chain' (ltC cmpBid) l2 := by
  have h1 : List.Chain' (fun p q : F64 => cmpF64 q p = some Ordering.lt)
      (l1.map Level.price) := (List.chain'_map Level.price).mpr h
  rw [hm] at h1
  exact (List.chain'_map Level.price).mp h1

theorem chain_ask_sublist {l1 l2 : List Level} (hs : l1.Sublist l2)
    (h : List.Chain' (ltC cmpAsk) l2) : List.Chain' (ltC cmpAsk) l1 := by
  haveI : IsTrans Level (ltC cmpAsk) := ⟨fun a b d h1 h2 => cmpAsk_lt_trans h1 h2⟩
  exact h.sublist hs

theorem chain_bid_sublist {l1 l2 : List Level} (hs : l1.Sublist l2)
    (h : List.Chain' (ltC cmpBid) l2) : List.Chain' (ltC cmpBid) l1 := by
  haveI : IsTrans Level (ltC cmpBid) := ⟨fun a b d h1 h2 => cmpBid_lt_trans h1 h2⟩
  exact h.sublist hs

theorem leC_of_chain_lt_ask {l : List Level} (h : List.Chain' (ltC cmpAsk) l) :
    List.Chain' (leC cmpAsk) l := h.imp (fun a b hab => Or.inl hab)

theorem leC_of_chain_lt_bid {l : List Level} (h : List.Chain' (ltC cmpBid) l) :
    List.Chain' (leC cmpBid) l := h.imp (fun a b hab => Or.inl hab)

/-! ## Zero-volume (deletion) update evaluation -/

theorem update_ask_zero_volume {b : OrderBook} {e : Json} {ps vs ts : String}
    (hI : BookInv b) (hE : entryStrings e = Except.ok (some (ps, vs, ts)))
    (hv0 : beqF64 ((parseF64 vs).getD (F64.fin 0)) (F64.fin 0) = true) :
    b.update (mkAskMsg e) =
      Except.ok { depth := b.depth, bids := b.bids,
                  asks := b.asks.filter
                    (fun a => !(beqF64 a.price ((parseF64 ps).getD (F64.fin 0)))) } := by
  obtain ⟨hca, hcb, hla, hlb⟩ := hI
  have hfa : applyEntry cmpAsk b.asks e = Except.ok
      (b.asks.filter (fun a => !(beqF64 a.price ((parseF64 ps).getD (F64.fin 0))))) := by
    rw [applyEntry_unfold hE, if_pos hv0]
  rw [update_mkAskMsg b e hfa]
  exact truncate_id
    (leC_of_chain_lt_ask (chain_ask_sublist (List.filter_sublist b.asks) hca))
    (leC_of_chain_lt_bid hcb)
    (le_trans (List.length_filter_le _ b.asks) hla) hlb

theorem update_bid_zero_volume {b : OrderBook} {e : Json} {ps vs ts : String}
    (hI : BookInv b) (hE : entryStrings e = Except.ok (some (ps, vs, ts)))
    (hv0 : beqF64 ((parseF64 vs).getD (F64.fin 0)) (F64.fin 0) = true) :
    b.update (mkBidMsg e) =
      Except.ok { depth := b.depth,
                  bids := b.bids.filter
                    (fun a => !(beqF64 a.price ((parseF64 ps).getD (F64.fin 0)))),
                  asks := b.asks } := by
  obtain ⟨hca, hcb, hla, hlb⟩ := hI
  have hfb : applyEntry cmpBid b.bids e = Except.ok
      (b.bids.filter (fun a => !(beqF64 a.price ((parseF64 ps).getD (F64.fin 0))))) := by
    rw [applyEntry_unfold hE, if_pos hv0]
  rw [update_mkBidMsg b e hfb]
  exact truncate_id
    (leC_of_chain_lt_ask hca)
    (leC_of_chain_lt_bid (chain_bid_sublist (List.filter_sublist b.bids) hcb))
    hla (le_trans (List.length_filter_le _ b.bids) hlb)

/-! ## Claim C3 -/

/-- C3: on an invariant-satisfying book, a diff entry whose parsed volume is
`0.0` removes exactly the level whose price `f64`-equals the parsed price and
no other (on either side), and is a no-op returning the book unchanged when
no such level is present. -/
theorem c3_zero_volume_delete (b : OrderBook) (e : Json) (ps vs ts : String)
    (hI : BookInv b) (hE : entryStrings e = Except.ok (some (ps, vs, ts)))
    (hv : parseF64 vs = some (F64.fin 0)) :
    (∀ pre L post, b.asks = pre ++ L :: post →
      beqF64 L.price ((parseF64 ps).getD (F64.fin 0)) = true →
      b.update (mkAskMsg e) =
        Except.ok { depth := b.depth, bids := b.bids, asks := pre ++ post }) ∧
    ((∀ L ∈ b.asks, beqF64 L.price ((parseF64 ps).getD (F64.fin 0)) = false) →
      b.update (mkAskMsg e) = Except.ok b) ∧
    (∀ pre L post, b.bids = pre ++ L :: post →
      beqF64 L.price ((parseF64 ps).getD (F64.fin 0)) = true →
      b.update (mkBidMsg e) =
        Except.ok { depth := b.depth, bids := pre ++ post, asks := b.asks }) ∧
    ((∀ L ∈ b.bids, beqF64 L.price ((parseF64 ps).getD (F64.fin 0)) = false) →
      b.update (mkBidMsg e) = Except.ok b) := by
  have hv0 : beqF64 ((parseF64 vs).getD (F64.fin 0)) (F64.fin 0) = true := by
    rw [hv]; decide
  refine ⟨?_, ?_, ?_, ?_⟩
  · intro pre L post hdec hL
    have h0 := update_ask_zero_volume hI hE hv0
    have hpair : List.Pairwise Rne (pre ++ L :: post) := by
      rw [← hdec]; exact pairwise_Rne_of_chain_ask hI.1
    have hfd : b.asks.filter
        (fun a => !(beqF64 a.price ((parseF64 ps).getD (F64.fin 0)))) = pre ++ post := by
      rw [hdec]
      exact filter_decomp hL (pairwise_decomp_pre hpair hL) (pairwise_decomp_post hpair hL)
    rw [hfd] at h0
    exact h0
  · intro habs
    have h0 := update_ask_zero_volume hI hE hv0
    have hfs : b.asks.filter
        (fun a => !(beqF64 a.price ((parseF64 ps).getD (F64.fin 0)))) = b.asks :=
      List.filter_eq_self.mpr (fun a ha => by rw [habs a ha]; rfl)
    rw [hfs] at h0
    exact h0
  · intro pre L post hdec hL
    have h0 := update_bid_zero_volume hI hE hv0
    have hpair : List.Pairwise Rne (pre ++ L :: post) := by
      rw [← hdec]; exact pairwise_Rne_of_chain_bid hI.2.1
    have hfd : b.bids.filter
        (fun a => !(beqF64 a.price ((parseF64 ps).getD (F64.fin 0)))) = pre ++ post := by
      rw [hdec]
      exact filter_decomp hL (pairwise_decomp_pre hpair hL) (pairwise_decomp_post hpair hL)
    rw [hfd] at h0
    exact h0
  · intro habs
    have h0 := update_bid_zero_volume hI hE hv0
    have hfs : b.bids.filter
        (fun a => !(beqF64 a.price ((parseF64 ps).getD (F64.fin 0)))) = b.bids :=
      List.filter_eq_self.mpr (fun a ha => by rw [habs a ha]; rfl)
    rw [hfs] at h0
    exact h0

/-- A small invariant-satisfying book: one bid at 2, asks at 3 and 4. -/
def c3Book : OrderBook :=
  { depth := 10,
    bids := [{ price := F64.fin 2, volume := F64.fin 1 }],
    asks := [{ price := F64.fin 3, volume := F64.fin 1 },
             { price := F64.fin 4, volume := F64.fin 2 }] }

/-- A zero-volume diff entry at price 3. -/
def c3Entry : Json := mkEntry3 "3.0" "0.0" "t0"

theorem c3_zero_volume_delete_witness :
    BookInv c3Book ∧
    c3Book.update (mkAskMsg c3Entry) =
      Except.ok { depth := 10, bids := c3Book.bids,
                  asks := [{ price := F64.fin 4, volume := F64.fin 2 }] } :=
  ⟨by constructor <;> first | decide | (constructor <;> decide), by
    have h := c3_zero_volume_delete c3Book c3Entry "3.0" "0.0" "t0"
      (by constructor <;> first | decide | (constructor <;> decide)) (by decide) (by decide)
    exact h.1 [] { price := F64.fin 3, volume := F64.fin 1 }
      [{ price := F64.fin 4, volume := F64.fin 2 }] (by decide) (by decide)⟩

/-! ## Claim C6 -/

/-- C6: a diff entry whose volume string fails to parse is not dropped: the
unparsable volume degrades to `0.0` and the entry is processed as a deletion
attempt at the parsed price (itself degraded to `0.0` when unparsable, per
the `getD` in the statement). -/
theorem c6_unparsable_degrades (b : OrderBook) (e : Json) (ps vs ts : String)
    (hI : BookInv b) (hE : entryStrings e = Except.ok (some (ps, vs, ts)))
    (hv : parseF64 vs = none) :
    b.update (mkAskMsg e) =
      Except.ok { depth := b.depth, bids := b.bids,
                  asks := b.asks.filter
                    (fun a => !(beqF64 a.price ((parseF64 ps).getD (F64.fin 0)))) } ∧
    b.update (mkBidMsg e) =
      Except.ok { depth := b.depth,
                  bids := b.bids.filter
                    (fun a => !(beqF64 a.price ((parseF64 ps).getD (F64.fin 0)))),
                  asks := b.asks } := by
  have hv0 : beqF64 ((parseF64 vs).getD (F64.fin 0)) (F64.fin 0) = true := by
    rw [hv]; decide
  exact ⟨update_ask_zero_volume hI hE hv0, update_bid_zero_volume hI hE hv0⟩

/-- An entry whose volume string `"bogus"` does not parse. -/
def c6Entry : Json := mkEntry3 "3.0" "bogus" "t0"

theorem c6_unparsable_degrades_witness :
    parseF64 "bogus" = none ∧
    c3Book.update (mkAskMsg c6Entry) =
      Except.ok { depth := 10, bids := c3Book.bids,
                  asks := c3Book.asks.filter
                    (fun a => !(beqF64 a.price ((parseF64 "3.0").getD (F64.fin 0)))) } :=
  ⟨by decide,
    (c6_unparsable_degrades c3Book c6Entry "3.0" "bogus" "t0"
      (by constructor <;> first | decide | (constructor <;> decide)) (by decide) (by decide)).1⟩

/-! ## Claim C4 -/

/-- C4: on an invariant-satisfying book, a diff entry with nonzero parsed
volume whose parsed price `f64`-equals an existing level's price replaces
only that level's volume: the side keeps its length and order, the level
keeps its price, and the other side is untouched. -/
theorem c4_replace_volume (b : OrderBook) (e : Json) (ps vs ts : String) (v : F64)
    (hI : BookInv b) (hE : entryStrings e = Except.ok (some (ps, vs, ts)))
    (hv : parseF64 vs = some v) (hvz : beqF64 v (F64.fin 0) = false) :
    (∀ pre L post, b.asks = pre ++ L :: post →
      beqF64 L.price ((parseF64 ps).getD (F64.fin 0)) = true →
      b.update (mkAskMsg e) =
        Except.ok { depth := b.depth, bids := b.bids,
                    asks := pre ++ { price := L.price, volume := v } :: post }) ∧
    (∀ pre L post, b.bids = pre ++ L :: post →
      beqF64 L.price ((parseF64 ps).getD (F64.fin 0)) = true →
      b.update (mkBidMsg e) =
        Except.ok { depth := b.depth,
                    bids := pre ++ { price := L.price, volume := v } :: post,
                    asks := b.asks }) := by
  obtain ⟨hca, hcb, hla, hlb⟩ := hI
  have hval : (parseF64 vs).getD (F64.fin 0) = v := by rw [hv]; rfl
  have hvneg : ¬(beqF64 ((parseF64 vs).getD (F64.fin 0)) (F64.fin 0) = true) := by
    rw [hval, hvz]; exact Bool.false_ne_true
  refine ⟨?_, ?_⟩
  · intro pre L post hdec hL
    have hmem : L ∈ b.asks := by
      rw [hdec]; exact List.mem_append_right pre (List.mem_cons_self L post)
    have hany : (b.asks.any fun a =>
        beqF64 a.price ((parseF64 ps).getD (F64.fin 0))) = true :=
      List.any_eq_true.mpr ⟨L, hmem, hL⟩
    have hpair : List.Pairwise Rne (pre ++ L :: post) := by
      rw [← hdec]; exact pairwise_Rne_of_chain_ask hca
    have hsf : setFirstVolume ((parseF64 ps).getD (F64.fin 0)) v b.asks =
        pre ++ { price := L.price, volume := v } :: post := by
      rw [hdec]
      exact setFirstVolume_decomp hL (pairwise_decomp_pre hpair hL)
    have hfa : applyEntry cmpAsk b.asks e =
        Except.ok (pre ++ { price := L.price, volume := v } :: post) := by
      rw [applyEntry_unfold hE, if_neg hvneg, if_pos hany, hval, hsf]
    rw [update_mkAskMsg b e hfa]
    have hm : b.asks.map Level.price =
        (pre ++ { price := L.price, volume := v } :: post).map Level.price := by
      rw [hdec]; simp
    have hlen : (pre ++ { price := L.price, volume := v } :: post).length =
        b.asks.length := by
      rw [hdec]; simp
    exact truncate_id (leC_of_chain_lt_ask (chain_ask_of_map_price hm hca))
      (leC_of_chain_lt_bid hcb) (hlen ▸ hla) hlb
  · intro pre L post hdec hL
    have hmem : L ∈ b.bids := by
      rw [hdec]; exact List.mem_append_right pre (List.mem_cons_self L post)
    have hany : (b.bids.any fun a =>
        beqF64 a.price ((parseF64 ps).getD (F64.fin 0))) = true :=
      List.any_eq_true.mpr ⟨L, hmem, hL⟩
    have hpair : List.Pairwise Rne (pre ++ L :: post) := by
      rw [← hdec]; exact pairwise_Rne_of_chain_bid hcb
    have hsf : setFirstVolume ((parseF64 ps).getD (F64.fin 0)) v b.bids =
        pre ++ { price := L.price, volume := v } :: post := by
      rw [hdec]
      exact setFirstVolume_decomp hL (pairwise_decomp_pre hpair hL)
    have hfb : applyEntry cmpBid b.bids e =
        Except.ok (pre ++ { price := L.price, volume := v } :: post) := by
      rw [applyEntry_unfold hE, if_neg hvneg, if_pos hany, hval, hsf]
    rw [update_mkBidMsg b e hfb]
    have hm : b.bids.map Level.price =
        (pre ++ { price := L.price, volume := v } :: post).map Level.price := by
      rw [hdec]; simp
    have hlen : (pre ++ { price := L.price, volume := v } :: post).length =
        b.bids.length := by
      rw [hdec]; simp
    exact truncate_id (leC_of_chain_lt_ask hca)
      (leC_of_chain_lt_bid (chain_bid_of_map_price hm hcb)) hla (hlen ▸ hlb)

instance (b : OrderBook) : Decidable (BookInv b) := by
  unfold BookInv; infer_instance

/-- An entry replacing the volume at ask price 3 with 5. -/
def c4Entry : Json := mkEntry3 "3.0" "5.0" "t0"

theorem c4_replace_volume_witness :
    BookInv c3Book ∧
    c3Book.update (mkAskMsg c4Entry) =
      Except.ok { depth := 10, bids := c3Book.bids,
                  asks := [{ price := F64.fin 3, volume := F64.fin 5 },
                           { price := F64.fin 4, volume := F64.fin 2 }] } :=
  ⟨by decide, by
    have h := c4_replace_volume c3Book c4Entry "3.0" "5.0" "t0" (F64.fin 5)
      (by decide) (by decide) (by decide) (by decide)
    exact h.1 [] { price := F64.fin 3, volume := F64.fin 1 }
      [{ price := F64.fin 4, volume := F64.fin 2 }] (by decide) (by decide)⟩

/-! ## Claim C5 -/

/-- A one-ask invariant-satisfying book. -/
def c5NanBook : OrderBook :=
  { depth := 10, bids := [], asks := [{ price := F64.fin 1, volume := F64.fin 1 }] }

/-- A diff entry whose price string is `"NaN"` and whose volume is nonzero. -/
def c5NanEntry : Json := mkEntry3 "NaN" "1.0" "t0"

/-- C5 as stated is false: on an invariant-satisfying book, a diff entry with
nonzero parsed volume whose parsed price (`NaN`) is absent from the side does
not insert a level — the re-sort panics and the update aborts. -/
theorem c5_counterexample_nan_insert :
    BookInv c5NanBook ∧
    parseF64 "1.0" = some (F64.fin 1) ∧
    beqF64 (F64.fin 1) (F64.fin 0) = false ∧
    (∀ L ∈ c5NanBook.asks,
      beqF64 L.price ((parseF64 "NaN").getD (F64.fin 0)) = false) ∧
    c5NanBook.update (mkAskMsg c5NanEntry) = Except.error () := by
  refine ⟨by decide, by decide, by decide, by decide, by decide⟩

/-- C5, amended: as the claim states, but additionally requiring that the
parsed price and the side's existing prices are not `NaN` (forced by
`c5_counterexample_nan_insert`).  The new level is inserted at its
price-ordered position — the resulting side is a strictly sorted permutation
of the old side plus the new level — and the final side is its `depth`-prefix,
so when the insertion overflows the depth the worst-ranked level is evicted
and the length comes back to `depth`. -/
theorem c5_insert_sorted_evict (b : OrderBook) (e : Json) (ps vs ts : String) (v : F64)
    (hI : BookInv b) (hE : entryStrings e = Except.ok (some (ps, vs, ts)))
    (hv : parseF64 vs = some v) (hvz : beqF64 v (F64.fin 0) = false)
    (hpn : (parseF64 ps).getD (F64.fin 0) ≠ F64.nan) :
    ((∀ L ∈ b.asks, beqF64 L.price ((parseF64 ps).getD (F64.fin 0)) = false) →
     (∀ L ∈ b.asks, L.price ≠ F64.nan) →
     ∃ r, r.Perm ({ price := (parseF64 ps).getD (F64.fin 0), volume := v } :: b.asks) ∧
       List.Chain' (ltC cmpAsk) r ∧ r.length = b.asks.length + 1 ∧
       b.update (mkAskMsg e) =
         Except.ok { depth := b.depth, bids := b.bids, asks := r.take b.depth } ∧
       (r.take b.depth).length = min b.depth (b.asks.length + 1)) ∧
    ((∀ L ∈ b.bids, beqF64 L.price ((parseF64 ps).getD (F64.fin 0)) = false) →
     (∀ L ∈ b.bids, L.price ≠ F64.nan) →
     ∃ r, r.Perm ({ price := (parseF64 ps).getD (F64.fin 0), volume := v } :: b.bids) ∧
       List.Chain' (ltC cmpBid) r ∧ r.length = b.bids.length + 1 ∧
       b.update (mkBidMsg e) =
         Except.ok { depth := b.depth, bids := r.take b.depth, asks := b.asks } ∧
       (r.take b.depth).length = min b.depth (b.bids.length + 1)) := by
  obtain ⟨hca, hcb, hla, hlb⟩ := hI
  have hval : (parseF64 vs).getD (F64.fin 0) = v := by rw [hv]; rfl
  have hvneg : ¬(beqF64 ((parseF64 vs).getD (F64.fin 0)) (F64.fin 0) = true) := by
    rw [hval, hvz]; exact Bool.false_ne_true
  constructor
  · intro habs hnn
    have htot : ∀ x ∈ b.asks ++ [{ price := (parseF64 ps).getD (F64.fin 0), volume := v }],
        ∀ y ∈ b.asks ++ [{ price := (parseF64 ps).getD (F64.fin 0), volume := v }],
        (cmpAsk x y).isSome = true := by
      intro x hx y hy
      have hxn : x.price ≠ F64.nan := by
        rcases List.mem_append.mp hx with h | h
        · exact hnn x h
        · rw [List.mem_singleton] at h; subst h; exact hpn
      have hyn : y.price ≠ F64.nan := by
        rcases List.mem_append.mp hy with h | h
        · exact hnn y h
        · rw [List.mem_singleton] at h; subst h; exact hpn
      exact cmpF64_isSome hxn hyn
    obtain ⟨r, hr⟩ := sortByE_total cmpAsk htot
    have happ : List.Pairwise Rne
        (b.asks ++ [{ price := (parseF64 ps).getD (F64.fin 0), volume := v }]) := by
      rw [List.pairwise_append]
      refine ⟨pairwise_Rne_of_chain_ask hca, List.pairwise_singleton _ _, ?_⟩
      intro a ha y hy
      rw [List.mem_singleton] at hy
      subst hy
      show beqF64 a.price ((parseF64 ps).getD (F64.fin 0)) = false
      exact habs a ha
    obtain ⟨hchain, hlen0⟩ :=
      sortByE_strict cmpAsk cmpAsk_swap (fun h => cmpAsk_neC_of_Rne h) hr happ
    have hlen : r.length = b.asks.length + 1 := by rw [hlen0]; simp
    have hanyF : ¬((b.asks.any fun a =>
        beqF64 a.price ((parseF64 ps).getD (F64.fin 0))) = true) := by
      rw [List.any_eq_false.mpr (fun a ha => by rw [habs a ha]; exact Bool.false_ne_true)]
      exact Bool.false_ne_true
    have hfa : applyEntry cmpAsk b.asks e = Except.ok r := by
      rw [applyEntry_unfold hE, if_neg hvneg, if_neg hanyF, hval]
      exact hr
    refine ⟨r, (sortByE_perm cmpAsk hr).trans (List.perm_append_singleton _ _),
      hchain, hlen, ?_, ?_⟩
    · rw [update_mkAskMsg b e hfa]
      exact truncate_eval (leC_of_chain_lt_ask hchain) (leC_of_chain_lt_bid hcb) hlb
    · rw [List.length_take, hlen]
  · intro habs hnn
    have htot : ∀ x ∈ b.bids ++ [{ price := (parseF64 ps).getD (F64.fin 0), volume := v }],
        ∀ y ∈ b.bids ++ [{ price := (parseF64 ps).getD (F64.fin 0), volume := v }],
        (cmpBid x y).isSome = true := by
      intro x hx y hy
      have hxn : x.price ≠ F64.nan := by
        rcases List.mem_append.mp hx with h | h
        · exact hnn x h
        · rw [List.mem_singleton] at h; subst h; exact hpn
      have hyn : y.price ≠ F64.nan := by
        rcases List.mem_append.mp hy with h | h
        · exact hnn y h
        · rw [List.mem_singleton] at h; subst h; exact hpn
      exact cmpF64_isSome hyn hxn
    obtain ⟨r, hr⟩ := sortByE_total cmpBid htot
    have happ : List.Pairwise Rne
        (b.bids ++ [{ price := (parseF64 ps).getD (F64.fin 0), volume := v }]) := by
      rw [List.pairwise_append]
      refine ⟨pairwise_Rne_of_chain_bid hcb, List.pairwise_singleton _ _, ?_⟩
      intro a ha y hy
      rw [List.mem_singleton] at hy
      subst hy
      show beqF64 a.price ((parseF64 ps).getD (F64.fin 0)) = false
      exact habs a ha
    obtain ⟨hchain, hlen0⟩ :=
      sortByE_strict cmpBid cmpBid_swap (fun h => cmpBid_neC_of_Rne h) hr happ
    have hlen : r.length = b.bids.length + 1 := by rw [hlen0]; simp
    have hanyF : ¬((b.bids.any fun a =>
        beqF64 a.price ((parseF64 ps).getD (F64.fin 0))) = true) := by
      rw [List.any_eq_false.mpr (fun a ha => by rw [habs a ha]; exact Bool.false_ne_true)]
      exact Bool.false_ne_true
    have hfb : applyEntry cmpBid b.bids e = Except.ok r := by
      rw [applyEntry_unfold hE, if_neg hvneg, if_neg hanyF, hval]
      exact hr
    refine ⟨r, (sortByE_perm cmpBid hr).trans (List.perm_append_singleton _ _),
      hchain, hlen, ?_, ?_⟩
    · rw [update_mkBidMsg b e hfb]
      show OrderBook.truncate_to_depth { depth := b.depth, bids := r, asks := b.asks } =
        Except.ok { depth := b.depth, bids := r.take b.depth, asks := b.asks }
      show (sortByE cmpAsk (b.asks.take b.depth) >>= fun asks2 =>
          sortByE cmpBid (r.take b.depth) >>= fun bids2 =>
          (Except.ok { depth := b.depth, bids := bids2, asks := asks2 } :
            Except Unit OrderBook)) =
          Except.ok { depth := b.depth, bids := r.take b.depth, asks := b.asks }
      rw [List.take_of_length_le hla,
        sortByE_sorted_id cmpAsk (leC_of_chain_lt_ask hca),
        sortByE_sorted_id cmpBid ((leC_of_chain_lt_bid hchain).take b.depth),
        exceptOk_bind, exceptOk_bind]
    · rw [List.length_take, hlen]

/-- A depth-1 book holding one ask at price 2. -/
def c5Book : OrderBook :=
  { depth := 1, bids := [], asks := [{ price := F64.fin 2, volume := F64.fin 1 }] }

/-- An entry inserting ask `1.0 @ 1.0`, which overflows depth 1. -/
def c5Entry : Json := mkEntry3 "1.0" "1.0" "t0"

theorem c5_insert_sorted_evict_witness :
    BookInv c5Book ∧
    (∃ r, r.Perm ({ price := (parseF64 "1.0").getD (F64.fin 0), volume := F64.fin 1 } ::
        c5Book.asks) ∧
      List.Chain' (ltC cmpAsk) r ∧ r.length = c5Book.asks.length + 1 ∧
      c5Book.update (mkAskMsg c5Entry) =
        Except.ok { depth := c5Book.depth, bids := c5Book.bids, asks := r.take c5Book.depth } ∧
      (r.take c5Book.depth).length = min c5Book.depth (c5Book.asks.length + 1)) :=
  ⟨by decide,
    (c5_insert_sorted_evict c5Book c5Entry "1.0" "1.0" "t0" (F64.fin 1)
      (by decide) (by decide) (by decide) (by decide) (by decide)).1
      (by decide) (by decide)⟩

/-! ## Well-formedness guards for the no-abort theorem -/

/-- A diff entry that cannot abort the update: when it is an array, it has
the three indexed elements, and its price string (when the element is a
string) does not parse to `NaN`. -/
def goodEntry (e : Json) : Bool :=
  match e with
  | Json.arr xs =>
    decide (3 ≤ xs.length) &&
    (match xs.get? 0 with
     | some v0 =>
       (match v0.as_str with
        | some s0 => decide (parseF64 s0 ≠ some F64.nan)
        | none => true)
     | none => true)
  | _ => true

/-- Every entry of one side's diff array is good (vacuously when absent). -/
def goodDiff (ud : Json) (key : String) : Bool :=
  match (ud.getStr key).bind Json.as_arr with
  | some entries => entries.all goodEntry
  | none => true

/-- Both diff arrays of an update message are good. -/
def goodMsg (m : Json) : Bool :=
  match m.getIdx 1 with
  | some ud => goodDiff ud "a" && goodDiff ud "b"
  | none => true

/-- No stored price is `NaN`. -/
def noNanSide (l : List Level) : Bool := l.all fun x => decide (x.price ≠ F64.nan)

theorem noNanSide_mem {l : List Level} (h : noNanSide l = true) :
    ∀ x ∈ l, x.price ≠ F64.nan := by
  intro x hx
  exact of_decide_eq_true (List.all_eq_true.mp h x hx)

theorem entryStrings_total {e : Json} (hG : goodEntry e = true) :
    entryStrings e = Except.ok none ∨
    ∃ ps vs ts, entryStrings e = Except.ok (some (ps, vs, ts)) ∧ parseF64 ps ≠ some F64.nan := by
  cases e with
  | arr xs =>
    unfold goodEntry at hG
    rw [Bool.and_eq_true] at hG
    obtain ⟨hlen, hg0⟩ := hG
    have hlen3 : 3 ≤ xs.length := of_decide_eq_true hlen
    cases hv0 : xs.get? 0 with
    | none => exact absurd (List.get?_eq_none.mp hv0) (by omega)
    | some v0 =>
    cases hv1 : xs.get? 1 with
    | none => exact absurd (List.get?_eq_none.mp hv1) (by omega)
    | some v1 =>
    cases hv2 : xs.get? 2 with
    | none => exact absurd (List.get?_eq_none.mp hv2) (by omega)
    | some v2 =>
    have hi0 : vecIndex xs 0 = Except.ok v0 := by unfold vecIndex; rw [hv0]
    have hi1 : vecIndex xs 1 = Except.ok v1 := by unfold vecIndex; rw [hv1]
    have hi2 : vecIndex xs 2 = Except.ok v2 := by unfold vecIndex; rw [hv2]
    have hshape : entryStrings (Json.arr xs) =
        (vecIndex xs 0 >>= fun w0 =>
          match w0.as_str with
          | none => Except.ok none
          | some s0 =>
            vecIndex xs 1 >>= fun w1 =>
            match w1.as_str with
            | none => Except.ok none
            | some s1 =>
              vecIndex xs 2 >>= fun w2 =>
              match w2.as_str with
              | none => Except.ok none
              | some s2 => Except.ok (some (s0, s1, s2))) := rfl
    cases hs0 : v0.as_str with
    | none =>
      refine Or.inl ?_
      rw [hshape]
      simp only [hi0, exceptOk_bind, hs0]
    | some s0 =>
      simp only [hv0, hs0] at hg0
      have hnan : parseF64 s0 ≠ some F64.nan := of_decide_eq_true hg0
      cases hs1 : v1.as_str with
      | none =>
        refine Or.inl ?_
        rw [hshape]
        simp only [hi0, hi1, exceptOk_bind, hs0, hs1]
      | some s1 =>
        cases hs2 : v2.as_str with
        | none =>
          refine Or.inl ?_
          rw [hshape]
          simp only [hi0, hi1, hi2, exceptOk_bind, hs0, hs1, hs2]
        | some s2 =>
          refine Or.inr ⟨s0, s1, s2, ?_, hnan⟩
          rw [hshape]
          simp only [hi0, hi1, hi2, exceptOk_bind, hs0, hs1, hs2]
  | null => exact Or.inl rfl
  | bool v => exact Or.inl rfl
  | num q => exact Or.inl rfl
  | str v => exact Or.inl rfl
  | obj fs => exact Or.inl rfl

theorem noNan_setFirstVolume {p v : F64} {l : List Level}
    (h : ∀ x ∈ l, x.price ≠ F64.nan) :
    ∀ x ∈ setFirstVolume p v l, x.price ≠ F64.nan := by
  intro x hx
  have hm : x.price ∈ (setFirstVolume p v l).map Level.price :=
    List.mem_map_of_mem Level.price hx
  rw [setFirstVolume_map_price] at hm
  obtain ⟨y, hy, hyp⟩ := List.mem_map.mp hm
  rw [← hyp]
  exact h y hy

theorem applyEntry_total {c : Level → Level → Option Ordering}
    (hcs : ∀ x y : Level, x.price ≠ F64.nan → y.price ≠ F64.nan → (c x y).isSome = true)
    {side : List Level} {e : Json} (hns : ∀ x ∈ side, x.price ≠ F64.nan)
    (hG : goodEntry e = true) :
    ∃ side', applyEntry c side e = Except.ok side' ∧ ∀ x ∈ side', x.price ≠ F64.nan := by
  rcases entryStrings_total hG with hE | ⟨ps, vs, ts, hE, hnan⟩
  · exact ⟨side, applyEntry_skip hE, hns⟩
  · have hpn : (parseF64 ps).getD (F64.fin 0) ≠ F64.nan := by
      cases hps : parseF64 ps with
      | none => simp
      | some f =>
        intro hc
        apply hnan
        rw [hps]
        simp only [Option.getD_some] at hc
        rw [hc]
    rw [applyEntry_unfold hE]
    by_cases hv0 : beqF64 ((parseF64 vs).getD (F64.fin 0)) (F64.fin 0) = true
    · rw [if_pos hv0]
      exact ⟨_, rfl, fun x hx => hns x (List.mem_of_mem_filter hx)⟩
    · rw [if_neg hv0]
      by_cases hany : (side.any fun a =>
          beqF64 a.price ((parseF64 ps).getD (F64.fin 0))) = true
      · rw [if_pos hany]
        exact ⟨_, rfl, noNan_setFirstVolume hns⟩
      · rw [if_neg hany]
        have hmemn : ∀ x ∈ side ++
            [{ price := (parseF64 ps).getD (F64.fin 0),
               volume := (parseF64 vs).getD (F64.fin 0) }], x.price ≠ F64.nan := by
          intro x hx
          rcases List.mem_append.mp hx with h | h
          · exact hns x h
          · rw [List.mem_singleton] at h; subst h; exact hpn
        obtain ⟨r, hr⟩ := sortByE_total c
          (fun x hx y hy => hcs x y (hmemn x hx) (hmemn y hy))
        exact ⟨r, hr, fun x hx => hmemn x ((sortByE_perm c hr).subset hx)⟩

theorem foldlM_applyEntry_total {c : Level → Level → Option Ordering}
    (hcs : ∀ x y : Level, x.price ≠ F64.nan → y.price ≠ F64.nan → (c x y).isSome = true) :
    ∀ (es : List Json) {side : List Level}, (∀ x ∈ side, x.price ≠ F64.nan) →
      (∀ e ∈ es, goodEntry e = true) →
      ∃ out, List.foldlM (applyEntry c) side es = Except.ok out ∧
        ∀ x ∈ out, x.price ≠ F64.nan := by
  intro es
  induction es with
  | nil =>
    intro side hns _
    exact ⟨side, by simp only [List.foldlM_nil]; rfl, hns⟩
  | cons e es ih =>
    intro side hns hG
    obtain ⟨s1, h1, hn1⟩ := applyEntry_total hcs hns (hG e (List.mem_cons_self e es))
    obtain ⟨out, h2, hn2⟩ := ih hn1 (fun x hx => hG x (List.mem_cons_of_mem e hx))
    refine ⟨out, ?_, hn2⟩
    simp only [List.foldlM_cons, h1, exceptOk_bind, h2]

theorem updateSide_total {c : Level → Level → Option Ordering}
    (hcs : ∀ x y : Level, x.price ≠ F64.nan → y.price ≠ F64.nan → (c x y).isSome = true)
    {cur : List Level} {ud : Json} {key : String}
    (hns : ∀ x ∈ cur, x.price ≠ F64.nan) (hG : goodDiff ud key = true) :
    ∃ out, updateSide c cur ud key = Except.ok out ∧ ∀ x ∈ out, x.price ≠ F64.nan := by
  unfold updateSide
  unfold goodDiff at hG
  cases hg : (ud.getStr key).bind Json.as_arr with
  | none => exact ⟨cur, rfl, hns⟩
  | some entries =>
    rw [hg] at hG
    exact foldlM_applyEntry_total hcs entries hns
      (fun e he => List.all_eq_true.mp hG e he)

theorem truncate_total {b1 : OrderBook}
    (hna : ∀ x ∈ b1.asks, x.price ≠ F64.nan) (hnb : ∀ x ∈ b1.bids, x.price ≠ F64.nan) :
    ∃ b', b1.truncate_to_depth = Except.ok b' := by
  obtain ⟨asks2, hA⟩ := sortByE_total cmpAsk
    (fun x hx y hy => cmpF64_isSome (hna x (List.mem_of_mem_take hx))
      (hna y (List.mem_of_mem_take hy)))
  obtain ⟨bids2, hB⟩ := sortByE_total cmpBid
    (fun x hx y hy => cmpF64_isSome (hnb y (List.mem_of_mem_take hy))
      (hnb x (List.mem_of_mem_take hx)))
  refine ⟨{ depth := b1.depth, bids := bids2, asks := asks2 }, ?_⟩
  show (sortByE cmpAsk (b1.asks.take b1.depth) >>= fun asks2 =>
      sortByE cmpBid (b1.bids.take b1.depth) >>= fun bids2 =>
      (Except.ok { depth := b1.depth, bids := bids2, asks := asks2 } :
        Except Unit OrderBook)) = _
  rw [hA, exceptOk_bind, hB, exceptOk_bind]

/-- C7, amended: on a book without `NaN` prices, `initialize` returns
normally whenever the snapshot's successfully-parsed prices are not `NaN`
(malformed snapshot entries are simply dropped by `parseSide`), and `update`
returns normally for every message whose diff entries are arrays of at least
three elements with no price string parsing to `NaN` (unparsable strings
degrade to `0.0` rather than being dropped).  The array-length and `NaN`
exclusions are forced by `c7_counterexample_short_entry` and
`c10_nan_panics`. -/
theorem c7_no_abort (b : OrderBook) (snap m : Json)
    (h1 : noNanSide (snapSide b.asks snap "as" b.depth) = true)
    (h2 : noNanSide (snapSide b.bids snap "bs" b.depth) = true)
    (h3 : noNanSide b.asks = true) (h4 : noNanSide b.bids = true)
    (h5 : goodMsg m = true) :
    (∃ b0, OrderBook.initialize b snap = Except.ok b0) ∧ ∃ b', b.update m = Except.ok b' := by
  have hcsAsk : ∀ x y : Level, x.price ≠ F64.nan → y.price ≠ F64.nan →
      (cmpAsk x y).isSome = true := fun x y hx hy => cmpF64_isSome hx hy
  have hcsBid : ∀ x y : Level, x.price ≠ F64.nan → y.price ≠ F64.nan →
      (cmpBid x y).isSome = true := fun x y hx hy => cmpF64_isSome hy hx
  constructor
  · obtain ⟨bids1, hB⟩ := sortByE_total cmpBid
      (fun x hx y hy => cmpF64_isSome (noNanSide_mem h2 y hy) (noNanSide_mem h2 x hx))
    obtain ⟨asks1, hA⟩ := sortByE_total cmpAsk
      (fun x hx y hy => cmpF64_isSome (noNanSide_mem h1 x hx) (noNanSide_mem h1 y hy))
    refine ⟨{ depth := b.depth, bids := bids1, asks := asks1 }, ?_⟩
    show (sortByE cmpBid (snapSide b.bids snap "bs" b.depth) >>= fun bids1 =>
        sortByE cmpAsk (snapSide b.asks snap "as" b.depth) >>= fun asks1 =>
        (Except.ok { depth := b.depth, bids := bids1, asks := asks1 } :
          Except Unit OrderBook)) = _
    rw [hB, exceptOk_bind, hA, exceptOk_bind]
  · unfold goodMsg at h5
    cases hm : m.getIdx 1 with
    | none =>
      obtain ⟨b', hb'⟩ := truncate_total (noNanSide_mem h3) (noNanSide_mem h4)
      refine ⟨b', ?_⟩
      unfold OrderBook.update
      rw [hm]
      exact hb'
    | some ud =>
      rw [hm, Bool.and_eq_true] at h5
      obtain ⟨asks1, hA, hna⟩ := updateSide_total hcsAsk (noNanSide_mem h3) h5.1
      obtain ⟨bids1, hB, hnb⟩ := updateSide_total hcsBid (noNanSide_mem h4) h5.2
      obtain ⟨b', hb'⟩ := @truncate_total
        { depth := b.depth, bids := bids1, asks := asks1 } hna hnb
      refine ⟨b', ?_⟩
      unfold OrderBook.update
      rw [hm]
      show (updateSide cmpAsk b.asks ud "a" >>= fun asks1 =>
          updateSide cmpBid b.bids ud "b" >>= fun bids1 =>
          OrderBook.truncate_to_depth { depth := b.depth, bids := bids1, asks := asks1 }) = _
      rw [hA, exceptOk_bind, hB, exceptOk_bind]
      exact hb'

/-- A benign single-ask-entry update message at price 7. -/
def c7Msg : Json := mkAskMsg (mkEntry3 "7.0" "1.0" "t0")

theorem c7_no_abort_witness :
    noNanSide (snapSide c3Book.asks c1Snap "as" c3Book.depth) = true ∧
    noNanSide (snapSide c3Book.bids c1Snap "bs" c3Book.depth) = true ∧
    noNanSide c3Book.asks = true ∧ noNanSide c3Book.bids = true ∧
    goodMsg c7Msg = true ∧
    ((∃ b0, OrderBook.initialize c3Book c1Snap = Except.ok b0) ∧
      ∃ b', c3Book.update c7Msg = Except.ok b') :=
  ⟨by decide, by decide, by decide, by decide, by decide,
    c7_no_abort c3Book c1Snap c7Msg (by decide) (by decide) (by decide) (by decide) (by decide)⟩

/-! ## Claim C9 -/

/-- C9: `calculate_checksum` is a pure, deterministic function of the top-10
levels per side: any two books agreeing on their first ten asks and first
ten bids produce the same checksum, so repeated calls on the same state
agree and levels beyond the tenth never affect the result (and, being a pure
function of the store, the call cannot modify it). -/
theorem c9_checksum_pure (b1 b2 : OrderBook)
    (ha : b1.asks.take 10 = b2.asks.take 10) (hb : b1.bids.take 10 = b2.bids.take 10) :
    b1.calculate_checksum = b2.calculate_checksum := by
  unfold OrderBook.calculate_checksum
  rw [ha, hb]

/-- Ten identical cheap levels. -/
def c9Common : List Level :=
  List.replicate 10 { price := F64.fin 1, volume := F64.fin 1 }

/-- An 11-deep book whose 11th ask is `2 @ 1`. -/
def c9BookA : OrderBook :=
  { depth := 11, bids := [],
    asks := c9Common ++ [{ price := F64.fin 2, volume := F64.fin 1 }] }

/-- An 11-deep book whose 11th ask differs: `3 @ 7`. -/
def c9BookB : OrderBook :=
  { depth := 11, bids := [],
    asks := c9Common ++ [{ price := F64.fin 3, volume := F64.fin 7 }] }

theorem c9_checksum_pure_witness :
    c9BookA.asks.take 10 = c9BookB.asks.take 10 ∧
    c9BookA.bids.take 10 = c9BookB.bids.take 10 ∧
    c9BookA.asks ≠ c9BookB.asks ∧
    c9BookA.calculate_checksum = c9BookB.calculate_checksum :=
  ⟨by decide, by decide, by decide, c9_checksum_pure c9BookA c9BookB (by decide) (by decide)⟩
